import Mathlib

/-!
# Chrysalis Chess - shallow embedding and verification

This file is a shallow embedding of the rules engine of the Chrysalis Chess
variant implemented in `src/App.tsx` (a single-file React application),
together with theorems settling the claims of the specification against it.

Modelling conventions:
* mutable JS records become immutable Lean structures; `deepClone` is the
  identity on values and is therefore dropped;
* the nullable `Occupant` union becomes an inductive with an `empty`
  constructor; optional JS fields (`mustReturn`, `returnByTurn`) become a
  `Bool` and an `Option Nat`;
* a JS `SquareId` (file letter + rank digit) is represented by the pair
  (file, rank); the redundant `id` field of `Square` is dropped since the
  source keeps it equal to (file, rank) everywhere;
* `board.find(...)` becomes `List.find?`; in-place mutation of the square
  found becomes `updateFirst` (update of the first matching element).  The
  source dereferences lookups with a non-null assertion; where the source
  would throw on a missing square the embedding returns the state unchanged
  (this path is unreachable for the well-formed 64-square boards the game
  constructs);
* JS numbers used for board coordinates during move generation become `Int`
  (offsets can be negative); counters become `Nat`;
* `Math.random()` is modelled by an explicit `rand : Nat → Nat` parameter
  (the Fisher-Yates index choices), and the random sort of the Easy AI level
  by an explicit list permutation parameter.
-/

/-- The two players, as in the source `type Color`. -/
inductive Color
  | white
  | black
deriving Repr, DecidableEq, Fintype

/-- Piece types, as in the source `type PieceType`. -/
inductive PieceType
  | K
  | Q
  | R
  | B
  | N
  | P
deriving Repr, DecidableEq, Fintype

/-- The payload of a differentiated piece occupant (source: the `piece`
variant of `Occupant`). -/
structure PieceData where
  color : Color
  type : PieceType
  bornAtTurn : Nat
  mustReturn : Bool
  returnByTurn : Option Nat
deriving Repr, DecidableEq

/-- Source `Occupant`: `null`, a metamorph token, or a differentiated piece. -/
inductive Occupant
  | empty
  | metamorph (color : Color)
  | piece (p : PieceData)
deriving Repr, DecidableEq

/-- Source `interface Square` (the `id` field is the pair (file, rank)). -/
structure Square where
  file : Nat
  rank : Nat
  blueSymbol : Option PieceType
  occupant : Occupant
deriving Repr, DecidableEq

/-- Source `interface ChrysalisStock`: a count per piece type. -/
structure ChrysalisStock where
  K : Nat
  Q : Nat
  R : Nat
  B : Nat
  N : Nat
  P : Nat
deriving Repr, DecidableEq

/-- Read the stock entry of a piece type. -/
def ChrysalisStock.get (s : ChrysalisStock) : PieceType → Nat
  | .K => s.K
  | .Q => s.Q
  | .R => s.R
  | .B => s.B
  | .N => s.N
  | .P => s.P

/-- Write the stock entry of a piece type. -/
def ChrysalisStock.set (s : ChrysalisStock) : PieceType → Nat → ChrysalisStock
  | .K, v => { s with K := v }
  | .Q, v => { s with Q := v }
  | .R, v => { s with R := v }
  | .B, v => { s with B := v }
  | .N, v => { s with N := v }
  | .P, v => { s with P := v }

/-- A pair of values indexed by color (source: `{ white: ..., black: ... }`). -/
structure ByColor (α : Type) where
  white : α
  black : α
deriving Repr, DecidableEq

/-- Read the entry of a color. -/
def ByColor.get {α : Type} (b : ByColor α) : Color → α
  | .white => b.white
  | .black => b.black

/-- Write the entry of a color. -/
def ByColor.set {α : Type} (b : ByColor α) : Color → α → ByColor α
  | .white, v => { b with white := v }
  | .black, v => { b with black := v }

/-- AI difficulty levels (source `level: 'Easy' | 'Medium' | 'Hard'`). -/
inductive AiLevel
  | Easy
  | Medium
  | Hard
deriving Repr, DecidableEq

/-- AI mode (source `mode: 'human' | 'cpu'`). -/
inductive AiMode
  | human
  | cpu
deriving Repr, DecidableEq

/-- Source `ai` field of `GameState`. -/
structure AiConfig where
  mode : AiMode
  cpuPlays : Color
  level : AiLevel
deriving Repr, DecidableEq

/-- A square identifier: (file 0..7, rank 1..8). -/
abbrev SquareId := Nat × Nat

/-- Source `interface GameState`. -/
structure GameState where
  board : List Square
  turn : Color
  moveNumber : Nat
  stock : ByColor ChrysalisStock
  quietus : ByColor ChrysalisStock
  kingOnBoard : ByColor Bool
  kingProtectedUntil : ByColor (Option Nat)
  selected : Option SquareId
  promotion : Option (SquareId × Color)
  message : Option String
  winner : Option Color
  winReason : Option String
  ai : AiConfig
  lastMove : Option (SquareId × SquareId × Color)
deriving Repr, DecidableEq

/-- Source `emptyStock()` (despite its name it is the full initial stock). -/
def emptyStock : ChrysalisStock := ⟨1, 1, 2, 2, 2, 8⟩

/-- Source `zeroStock()`. -/
def zeroStock : ChrysalisStock := ⟨0, 0, 0, 0, 0, 0⟩

/-- Source `INITIAL_COUNTS`. -/
def INITIAL_COUNTS : ChrysalisStock := ⟨1, 1, 2, 2, 2, 8⟩

/-- The opposite color (source writes `c === "white" ? "black" : "white"`). -/
def flipColor : Color → Color
  | .white => .black
  | .black => .white

/-- Source `inBounds` on move-generation coordinates. -/
abbrev inBoundsI (f r : Int) : Prop := 0 ≤ f ∧ f < 8 ∧ 1 ≤ r ∧ r ≤ 8

/-- The chrysalis zone test `rank >= 3 && rank <= 6` on a square rank. -/
abbrev inZone (r : Nat) : Prop := 3 ≤ r ∧ r ≤ 6

/-- The chrysalis zone test on a move-generation coordinate. -/
abbrev inZoneI (r : Int) : Prop := 3 ≤ r ∧ r ≤ 6

/-- `board.find(s => s.file === f && s.rank === r)` with Int coordinates. -/
def findFRI (board : List Square) (f r : Int) : Option Square :=
  board.find? (fun s => ((s.file : Int) == f) && ((s.rank : Int) == r))

/-- `board.find(s => s.id === id)`; the id is the (file, rank) pair. -/
def findId (board : List Square) (id : SquareId) : Option Square :=
  board.find? (fun s => (s.file == id.1) && (s.rank == id.2))

/-- Whether a square occupant blocks/permits landing, shared by the N and K
generators (source local `canLand`, occupancy part): landing is allowed on
an empty square or on an enemy differentiated piece. -/
def occAllowsLand (color : Color) : Occupant → Bool
  | .empty => true
  | .metamorph _ => false
  | .piece p => p.color != color

/-- Source local `canLand` in `legalMovesForPiece`. -/
def canLand (board : List Square) (limitTo316 : Bool) (color : Color)
    (nf nr : Int) : Bool :=
  if ¬ inBoundsI nf nr then false
  else if limitTo316 ∧ ¬ inZoneI nr then false
  else match findFRI board nf nr with
    | some s => occAllowsLand color s.occupant
    | none => false

/-- One sliding ray of the source `pushRays` loop, with step fuel.  A ray
starting in bounds leaves the board after at most 7 steps, so fuel 8 is
enough for the loop to reach its natural exit. -/
def rayGo (board : List Square) (limitTo316 : Bool) (color : Color)
    (df dr : Int) : Nat → Int → Int → List (Int × Int)
  | 0, _, _ => []
  | fuel + 1, nf, nr =>
    if ¬ inBoundsI nf nr then []
    else if limitTo316 ∧ ¬ inZoneI nr then []
    else match findFRI board nf nr with
      | none => []
      | some s =>
        match s.occupant with
        | .empty => (nf, nr) :: rayGo board limitTo316 color df dr fuel (nf + df) (nr + dr)
        | .metamorph _ => []
        | .piece p => if p.color != color then [(nf, nr)] else []

/-- Source `pushRays` for one direction. -/
def rayMoves (board : List Square) (limitTo316 : Bool) (color : Color)
    (f0 r0 df dr : Int) : List (Int × Int) :=
  rayGo board limitTo316 color df dr 8 (f0 + df) (r0 + dr)

/-- The eight knight offsets of the source. -/
def knightDeltas : List (Int × Int) :=
  [(1, 2), (2, 1), (-1, 2), (-2, 1), (1, -2), (2, -1), (-1, -2), (-2, -1)]

/-- The eight king offsets, in the row-major order of the source double loop
(`df` outer from -1 to 1, `dr` inner from -1 to 1, skipping (0,0)). -/
def kingDeltas : List (Int × Int) :=
  [(-1, -1), (-1, 0), (-1, 1), (0, -1), (0, 1), (1, -1), (1, 0), (1, 1)]

/-- The four bishop ray directions. -/
def bishopDirs : List (Int × Int) := [(1, 1), (1, -1), (-1, 1), (-1, -1)]

/-- The four rook ray directions. -/
def rookDirs : List (Int × Int) := [(1, 0), (-1, 0), (0, 1), (0, -1)]

/-- The eight queen ray directions. -/
def queenDirs : List (Int × Int) :=
  [(1, 0), (-1, 0), (0, 1), (0, -1), (1, 1), (1, -1), (-1, 1), (-1, -1)]

/-- Source `legalMovesForPiece`, factored over the `limitTo316` flag and the
piece data.  `gs.board` is the only part of the state the source reads. -/
def pieceMovesAux (board : List Square) (limitTo316 : Bool) (p : PieceData)
    (f0 r0 : Int) : List (Int × Int) :=
  match p.type with
  | .N =>
    knightDeltas.filterMap (fun d =>
      if canLand board limitTo316 p.color (f0 + d.1) (r0 + d.2) then some (f0 + d.1, r0 + d.2)
      else none)
  | .B =>
    (bishopDirs.map (fun d => rayMoves board limitTo316 p.color f0 r0 d.1 d.2)).flatten
  | .R =>
    (rookDirs.map (fun d => rayMoves board limitTo316 p.color f0 r0 d.1 d.2)).flatten
  | .Q =>
    (queenDirs.map (fun d => rayMoves board limitTo316 p.color f0 r0 d.1 d.2)).flatten
  | .K =>
    kingDeltas.filterMap (fun d =>
      if canLand board limitTo316 p.color (f0 + d.1) (r0 + d.2) then some (f0 + d.1, r0 + d.2)
      else none)
  | .P =>
    let dir : Int := if p.color = .white then -1 else 1
    let oneR := r0 + dir
    let forward :=
      if inBoundsI f0 oneR then
        match findFRI board f0 oneR with
        | some front => if front.occupant = .empty then [(f0, oneR)] else []
        | none => []
      else []
    let captures := ([(-1 : Int), 1]).filterMap (fun df =>
      let nf := f0 + df
      let nr := r0 + dir
      if ¬ inBoundsI nf nr then none
      else match findFRI board nf nr with
        | some s =>
          match s.occupant with
          | .piece o => if o.color != p.color then some (nf, nr) else none
          | _ => none
        | none => none)
    forward ++ captures

/-- Source `legalMovesForPiece(gs, from)`.  If the occupant of `from` is not
a differentiated piece the source would have crashed on its type assertion;
the embedding returns no moves (every caller guards the occupant kind). -/
def legalMovesForPiece (gs : GameState) (sq : Square) : List (Int × Int) :=
  match sq.occupant with
  | .piece p => pieceMovesAux gs.board (!p.mustReturn) p (sq.file : Int) (sq.rank : Int)
  | _ => []

/-- Source `legalMovesForMetamorph(gs, from)`. -/
def legalMovesForMetamorph (gs : GameState) (sq : Square) : List (Int × Int) :=
  match sq.occupant with
  | .metamorph c =>
    let dir : Int := if c = .white then -1 else 1
    let nr := (sq.rank : Int) + dir
    if ¬ inBoundsI (sq.file : Int) nr then []
    else match findFRI gs.board (sq.file : Int) nr with
      | some dest => if dest.occupant = .empty then [((sq.file : Int), nr)] else []
      | none => []
  | _ => []

/-- Predicate matching a square against a square id (used by the source
in-place mutations through `board.find`). -/
def matchesId (id : SquareId) (s : Square) : Bool :=
  (s.file == id.1) && (s.rank == id.2)

/-- Update the first element of a list satisfying `p` (the pure counterpart
of finding a square with `find` and mutating it). -/
def updateFirst (p : Square → Bool) (g : Square → Square) : List Square → List Square
  | [] => []
  | s :: rest => if p s then g s :: rest else s :: updateFirst p g rest

/-- Overwrite the occupant of the square with the given id. -/
def setOccAt (board : List Square) (id : SquareId) (o : Occupant) : List Square :=
  updateFirst (matchesId id) (fun s => { s with occupant := o }) board

/-- The mutable per-sweep state of `applyAutoTransforms` (the fields of the
cloned `GameState` it writes while walking the board). -/
structure SweepSt where
  stock : ByColor ChrysalisStock
  kingOnBoard : ByColor Bool
  kingProtectedUntil : ByColor (Option Nat)
deriving Repr, DecidableEq

/-- One square of the `applyAutoTransforms` loop body. -/
def transformSquare (mn : Nat) (st : SweepSt) (sq : Square) : SweepSt × Square :=
  if ¬ inZone sq.rank then (st, sq)
  else match sq.blueSymbol with
  | none => (st, sq)
  | some needed =>
    match sq.occupant with
    | .empty => (st, sq)
    | .metamorph c =>
      if 0 < (st.stock.get c).get needed then
        let st1 := { st with
          stock := st.stock.set c ((st.stock.get c).set needed ((st.stock.get c).get needed - 1)) }
        let st2 :=
          if needed = .K then
            { st1 with kingOnBoard := st1.kingOnBoard.set c true,
                       kingProtectedUntil := st1.kingProtectedUntil.set c (some mn) }
          else st1
        (st2, { sq with occupant := .piece ⟨c, needed, mn, false, none⟩ })
      else (st, sq)
    | .piece p =>
      if p.type ≠ needed ∧ 0 < (st.stock.get p.color).get needed then
        let s1 := (st.stock.get p.color).set p.type
          (min (INITIAL_COUNTS.get p.type) ((st.stock.get p.color).get p.type + 1))
        let s2 := s1.set needed (s1.get needed - 1)
        let st1 := { st with stock := st.stock.set p.color s2 }
        let st2 :=
          if p.type = .K ∧ needed ≠ .K then
            { st1 with kingOnBoard := st1.kingOnBoard.set p.color false }
          else st1
        let st3 :=
          if needed = .K then
            { st2 with kingOnBoard := st2.kingOnBoard.set p.color true,
                       kingProtectedUntil := st2.kingProtectedUntil.set p.color (some mn) }
          else st2
        (st3, { sq with occupant := .piece ⟨p.color, needed, mn, false, none⟩ })
      else (st, sq)

/-- The `applyAutoTransforms` walk over the board list, threading the sweep
state (later squares observe stock consumed by earlier ones, as in the
source loop). -/
def sweepBoard (mn : Nat) (st : SweepSt) : List Square → SweepSt × List Square
  | [] => (st, [])
  | sq :: rest =>
    let p1 := transformSquare mn st sq
    let p2 := sweepBoard mn p1.1 rest
    (p2.1, p1.2 :: p2.2)

/-- Source `applyAutoTransforms` (the source also returns a constant
`changed: true` flag which every caller ignores; it is dropped here). -/
def applyAutoTransforms (gs : GameState) : GameState :=
  let p := sweepBoard gs.moveNumber ⟨gs.stock, gs.kingOnBoard, gs.kingProtectedUntil⟩ gs.board
  { gs with board := p.2, stock := p.1.stock, kingOnBoard := p.1.kingOnBoard,
            kingProtectedUntil := p.1.kingProtectedUntil }

/-- The color of an occupant, if any. -/
def occColor : Occupant → Option Color
  | .empty => none
  | .metamorph c => some c
  | .piece p => some p.color

/-- Capture bookkeeping of `performMove` (quietus entry, king flags), plus
the local `capturedKing` variable. -/
def captureStep (next : GameState) (target : Occupant) : GameState × Option Color :=
  match target with
  | .piece t =>
    let q1 := (next.quietus.get t.color).set t.type ((next.quietus.get t.color).get t.type + 1)
    let next1 := { next with quietus := next.quietus.set t.color q1 }
    if t.type = .K then
      ({ next1 with kingOnBoard := next1.kingOnBoard.set t.color false }, some t.color)
    else (next1, none)
  | _ => (next, none)

/-- `to.occupant = from.occupant; from.occupant = null`. -/
def moveOccStep (next : GameState) (fromId toId : SquareId) (mover : Occupant) : GameState :=
  { next with board := setOccAt (setOccAt next.board toId mover) fromId .empty }

/-- Safe return of a loan piece landing inside ranks 3..6 (source lines
clearing `mustReturn`/`returnByTurn` right after the move). -/
def safeReturnStep (next : GameState) (toId : SquareId) : GameState :=
  match findId next.board toId with
  | some sq =>
    match sq.occupant with
    | .piece p =>
      if p.mustReturn = true ∧ inZone sq.rank then
        { next with board :=
            setOccAt next.board toId (.piece { p with mustReturn := false, returnByTurn := none }) }
      else next
    | _ => next
  | none => next

/-- Inline transformation of a differentiated piece that landed on its
destination square (source block guarded by `to.occupant.kind === "piece"`).
A loan piece landing as K is protected until `moveNumber + 1`. -/
def inlinePieceTransform (next : GameState) (toId : SquareId) : GameState :=
  match findId next.board toId with
  | some sq =>
    match sq.occupant, sq.blueSymbol with
    | .piece p, some needed =>
      if inZone sq.rank ∧ p.type ≠ needed ∧ 0 < (next.stock.get p.color).get needed then
        let s1 := (next.stock.get p.color).set p.type
          (min (INITIAL_COUNTS.get p.type) ((next.stock.get p.color).get p.type + 1))
        let s2 := s1.set needed (s1.get needed - 1)
        let n1 := { next with
          stock := next.stock.set p.color s2,
          board := setOccAt next.board toId (.piece ⟨p.color, needed, next.moveNumber, false, none⟩) }
        let n2 :=
          if p.type = .K ∧ needed ≠ .K then
            { n1 with kingOnBoard := n1.kingOnBoard.set p.color false }
          else n1
        if needed = .K then
          { n2 with kingOnBoard := n2.kingOnBoard.set p.color true,
                    kingProtectedUntil := n2.kingProtectedUntil.set p.color (some (n2.moveNumber + 1)) }
        else n2
      else next
    | _, _ => next
  | none => next

/-- Inline transformation of a metamorph that landed on its destination
square (source block guarded by `to.occupant.kind === "metamorph"`). -/
def inlineMetaTransform (next : GameState) (toId : SquareId) : GameState :=
  match findId next.board toId with
  | some sq =>
    match sq.occupant, sq.blueSymbol with
    | .metamorph c, some needed =>
      if inZone sq.rank ∧ 0 < (next.stock.get c).get needed then
        let n1 := { next with
          stock := next.stock.set c ((next.stock.get c).set needed ((next.stock.get c).get needed - 1)),
          board := setOccAt next.board toId (.piece ⟨c, needed, next.moveNumber, false, none⟩) }
        if needed = .K then
          { n1 with kingOnBoard := n1.kingOnBoard.set c true,
                    kingProtectedUntil := n1.kingProtectedUntil.set c (some (n1.moveNumber + 1)) }
        else n1
      else next
    | _, _ => next
  | none => next

/-- Pawn promotion request when a pawn lands on its far rank. -/
def promoFlagStep (next : GameState) (toId : SquareId) : GameState :=
  match findId next.board toId with
  | some sq =>
    match sq.occupant with
    | .piece p =>
      if p.type = .P ∧ ((p.color = .white ∧ sq.rank = 1) ∨ (p.color = .black ∧ sq.rank = 8)) then
        { next with promotion := some ((sq.file, sq.rank), p.color) }
      else next
    | _ => next
  | none => next

/-- The loan-expiry decision for one occupant (source loop body of the
`for(const sq of next.board)` pass after the move counter advance). -/
def expireOcc (justMoved : Color) (mn : Nat) (sq : Square) : Square :=
  match sq.occupant with
  | .piece p =>
    match p.returnByTurn with
    | some rb =>
      if p.mustReturn = true ∧ p.color = justMoved ∧ rb ≤ mn then
        if ¬ inZone sq.rank then { sq with occupant := .empty }
        else { sq with occupant := .piece { p with mustReturn := false, returnByTurn := none } }
      else sq
    | none => sq
  | _ => sq

/-- The `kingOnBoard` updates accumulated by the expiry pass (a destroyed
loan king clears its color flag). -/
def expiryKob (justMoved : Color) (mn : Nat) (kob : ByColor Bool)
    (board : List Square) : ByColor Bool :=
  board.foldl (fun kb sq =>
    match sq.occupant with
    | .piece p =>
      match p.returnByTurn with
      | some rb =>
        if p.mustReturn = true ∧ p.color = justMoved ∧ rb ≤ mn ∧ ¬ inZone sq.rank ∧ p.type = .K
        then kb.set p.color false else kb
      | none => kb
    | _ => kb) kob

/-- The whole loan-expiry pass. -/
def expiryStep (next : GameState) : GameState :=
  let justMoved := flipColor next.turn
  { next with kingOnBoard := expiryKob justMoved next.moveNumber next.kingOnBoard next.board,
              board := next.board.map (expireOcc justMoved next.moveNumber) }

/-- Source `findKingSquare`. -/
def findKingSquare (gs : GameState) (c : Color) : Option Square :=
  gs.board.find? (fun s =>
    match s.occupant with
    | .piece p => (p.color == c) && (p.type == PieceType.K)
    | _ => false)

/-- Source `isSquareAttacked(gs, f, r, by)`. -/
def isSquareAttacked (gs : GameState) (f r : Int) (atk : Color) : Bool :=
  gs.board.any (fun sq =>
    match sq.occupant with
    | .piece p => (p.color == atk) &&
        (legalMovesForPiece gs sq).any (fun m => (m.1 == f) && (m.2 == r))
    | _ => false)

/-- Source `hasAnyPawn`. -/
def hasAnyPawn (gs : GameState) (c : Color) : Bool :=
  gs.board.any (fun s =>
    match s.occupant with
    | .piece p => (p.color == c) && (p.type == PieceType.P)
    | _ => false)

/-- Source `hasAnyMetamorph`. -/
def hasAnyMetamorph (gs : GameState) (c : Color) : Bool :=
  gs.board.any (fun s =>
    match s.occupant with
    | .metamorph mc => mc == c
    | _ => false)

/-- Source `anyPawnCanMove`. -/
def anyPawnCanMove (gs : GameState) (c : Color) : Bool :=
  gs.board.any (fun s =>
    match s.occupant with
    | .piece p => (p.color == c) && (p.type == PieceType.P) && !(legalMovesForPiece gs s).isEmpty
    | _ => false)

/-- Source `anyMetamorphCanMove`. -/
def anyMetamorphCanMove (gs : GameState) (c : Color) : Bool :=
  gs.board.any (fun s =>
    match s.occupant with
    | .metamorph mc => (mc == c) && !(legalMovesForMetamorph gs s).isEmpty
    | _ => false)

/-- The checkmate branch of `detectWin`: `some` when the mover checkmates
the opponent king. -/
def checkmateResult (gs : GameState) (lastMover : Color) : Option (Color × String) :=
  let opponent := gs.turn
  if gs.kingOnBoard.get opponent then
    match findKingSquare gs opponent with
    | some ksq =>
      if isSquareAttacked gs (ksq.file : Int) (ksq.rank : Int) lastMover then
        match ksq.occupant with
        | .piece occ =>
          let kingMoves := (legalMovesForPiece gs ksq).filter (fun _ => occ.type == PieceType.K)
          let safeKingMoves := kingMoves.filter (fun m => !(isSquareAttacked gs m.1 m.2 lastMover))
          if safeKingMoves.isEmpty then some (lastMover, "checkmate") else none
        | _ => none
      else none
    | none => none
  else none

/-- The immobility predicate of the `detectWin` final loop, for one color. -/
def immobilityFor (gs : GameState) (c : Color) : Bool :=
  if gs.kingOnBoard.get c then false
  else
    let noPawns := !(hasAnyPawn gs c)
    let pawnsStuck := !noPawns && !(anyPawnCanMove gs c)
    let noMorphs := !(hasAnyMetamorph gs c)
    let morphsStuck := !noMorphs && !(anyMetamorphCanMove gs c)
    (noPawns || pawnsStuck) && (noMorphs || morphsStuck)

/-- The immobility loop of `detectWin` (white checked before black, first
trigger wins for the other color). -/
def immobilityResult (gs : GameState) : Option (Color × String) :=
  if immobilityFor gs .white then some (.black, "no king + no mobile pawns/metamorphs")
  else if immobilityFor gs .black then some (.white, "no king + no mobile pawns/metamorphs")
  else none

/-- Source `detectWin(gs, lastMover, capturedKing)`. -/
def detectWin (gs : GameState) (lastMover : Color) (capturedKing : Option Color) :
    Option (Color × String) :=
  match capturedKing with
  | some _ => some (lastMover, "king captured")
  | none =>
    match checkmateResult gs lastMover with
    | some w => some w
    | none => immobilityResult gs

/-- Printable color name (the source interpolates the color value into the
winner message). -/
def colorName : Color → String
  | .white => "white"
  | .black => "black"

/-- The tail of `performMove`: clear selection and message, run `detectWin`
and freeze the winner fields if it fired. -/
def winStep (newGs : GameState) (capturedKing : Option Color) : GameState :=
  let cleared := { newGs with selected := none, message := none }
  let lastMover := flipColor cleared.turn
  match detectWin cleared lastMover capturedKing with
  | some wr =>
    { cleared with
      winner := some wr.1,
      winReason := some wr.2,
      message := some ("Winner: " ++ colorName wr.1 ++ " (" ++ wr.2 ++ ")") }
  | none => cleared

/-- The accepted-move pipeline of `performMove` up to (and including) the
transformation sweep, before win detection. -/
def moveMid (gs : GameState) (fromId toId : SquareId) (mover : Occupant)
    (sTo : Square) (moverColor : Color) : GameState :=
  let next := moveOccStep (captureStep gs sTo.occupant).1 fromId toId mover
  let next := { next with lastMove := some (fromId, toId, moverColor) }
  let next := safeReturnStep next toId
  let next := inlinePieceTransform next toId
  let next := inlineMetaTransform next toId
  let next := promoFlagStep next toId
  let next := { next with turn := flipColor next.turn, moveNumber := next.moveNumber + 1 }
  let next := expiryStep next
  applyAutoTransforms next

/-- The accepted-move pipeline of `performMove`, from capture bookkeeping to
win detection. -/
def performMoveAccept (gs : GameState) (fromId toId : SquareId) (mover : Occupant)
    (sTo : Square) (moverColor : Color) : GameState :=
  winStep (moveMid gs fromId toId mover sTo moverColor) (captureStep gs sTo.occupant).2

/-- The legality test `legal.some(m => m.f === to.file && m.r === to.rank)`
of `performMove`, for one candidate destination. -/
def hitsSquare (sTo : Square) (m : Int × Int) : Bool :=
  (m.1 == (sTo.file : Int)) && (m.2 == (sTo.rank : Int))

/-- The king-capture guards of `performMove`: the message rejecting the
move, if one of the two guards fires. -/
def kingGuardMsg (gs : GameState) (moverColor : Color) (target : Occupant) : Option String :=
  match target with
  | .piece t =>
    if t.type = .K then
      if !(gs.kingOnBoard.get moverColor) then
        some "You cannot take the king without your own king on the board."
      else
        match gs.kingProtectedUntil.get t.color with
        | some prot => if gs.moveNumber = prot then some "That king is protected this turn." else none
        | none => none
    else none
  | _ => none

/-- The legality and king-guard checks of `performMove`, then the accepted
pipeline. -/
def performMoveChecked (gs : GameState) (fromId toId : SquareId) (mover : Occupant)
    (moverColor : Color) (legal : List (Int × Int)) (sTo : Square) : GameState :=
  if ¬ legal.any (hitsSquare sTo) then
    { gs with message := some "Illegal move." }
  else
    match kingGuardMsg gs moverColor sTo.occupant with
    | some m => { gs with message := some m }
    | none => performMoveAccept gs fromId toId mover sTo moverColor

/-- Source `performMove(gs, fromId, toId)`. -/
def performMove (gs : GameState) (fromId toId : SquareId) : GameState :=
  if gs.winner.isSome then gs
  else
    match findId gs.board fromId, findId gs.board toId with
    | some sFrom, some sTo =>
      match sFrom.occupant with
      | .empty => gs
      | .metamorph c =>
        if c ≠ gs.turn then gs
        else performMoveChecked gs fromId toId (.metamorph c) c
          (legalMovesForMetamorph gs sFrom) sTo
      | .piece p =>
        if p.color ≠ gs.turn then gs
        else performMoveChecked gs fromId toId (.piece p) p.color
          (legalMovesForPiece gs sFrom) sTo
    | _, _ => gs

/-- Source `activeCounts(gs, color)`. -/
def activeCounts (gs : GameState) (c : Color) : ChrysalisStock :=
  gs.board.foldl (fun acc sq =>
    match sq.occupant with
    | .piece p => if p.color = c then acc.set p.type (acc.get p.type + 1) else acc
    | _ => acc) zeroStock

/-- Source `promotionAvailable(gs, color, t)`. -/
def promotionAvailable (gs : GameState) (c : Color) (t : PieceType) : Bool :=
  (activeCounts gs c).get t < INITIAL_COUNTS.get t

/-- Source `applyPromotionChoice(state, type)`. -/
def applyPromotionChoice (state : GameState) (t : PieceType) : GameState :=
  match state.promotion with
  | none => state
  | some pr =>
    let square := pr.1
    let color := pr.2
    if ¬ promotionAvailable state color t then state
    else
      let next :=
        if 0 < (state.quietus.get color).get t then
          { state with quietus :=
              state.quietus.set color ((state.quietus.get color).set t ((state.quietus.get color).get t - 1)) }
        else state
      let deadline := next.moveNumber + 1
      let next := { next with
        board := setOccAt next.board square (.piece ⟨color, t, next.moveNumber, true, some deadline⟩) }
      let next :=
        if t = .K then
          { next with kingOnBoard := next.kingOnBoard.set color true,
                      kingProtectedUntil := next.kingProtectedUntil.set color (some (next.moveNumber + 1)) }
        else next
      applyAutoTransforms { next with promotion := none }

/-- Source `kingInCheck(gs, color)`. -/
def kingInCheck (gs : GameState) (c : Color) : Bool :=
  if !(gs.kingOnBoard.get c) then false
  else
    match findKingSquare gs c with
    | none => false
    | some ksq => isSquareAttacked gs (ksq.file : Int) (ksq.rank : Int) (flipColor c)

/-- The AI preference order Q > R > B > N > K. -/
def promoPref : List PieceType := [.Q, .R, .B, .N, .K]

/-- Source `aiResolvePromotion(state, color)`. -/
def aiResolvePromotion (state : GameState) (color : Color) : GameState :=
  match promoPref.find? (fun t => promotionAvailable state color t) with
  | some t => applyPromotionChoice state t
  | none => state

/-- A candidate of `generateMoves`: the move endpoints plus the state its
application produced. -/
structure MoveCand where
  fromSq : SquareId
  toSq : SquareId
  next : GameState
deriving Repr, DecidableEq

/-- The tentative application of one generated destination inside
`generateMoves` (apply the move, auto-resolve a resulting own promotion,
drop the candidate when the result carries a message). -/
def candOf (base : GameState) (color : Color) (sq : Square) (m : Int × Int) : Option MoveCand :=
  let n := performMove base (sq.file, sq.rank) (m.1.toNat, m.2.toNat)
  let n2 :=
    match n.promotion with
    | some pr => if pr.2 = color then aiResolvePromotion n color else n
    | none => n
  if n2.message.isNone then some ⟨(sq.file, sq.rank), (m.1.toNat, m.2.toNat), n2⟩ else none

/-- The raw candidate collection loop of `generateMoves` (before the
king-safety filtering). -/
def genCandidates (gs : GameState) (color : Color) : List MoveCand :=
  let base := { gs with turn := color }
  (base.board.map (fun sq =>
    match sq.occupant with
    | .metamorph c =>
      if c = color then (legalMovesForMetamorph base sq).filterMap (candOf base color sq) else []
    | .piece p =>
      if p.color = color then (legalMovesForPiece base sq).filterMap (candOf base color sq) else []
    | .empty => [])).flatten

/-- Source `generateMoves(gs, color)`. -/
def generateMoves (gs : GameState) (color : Color) : List MoveCand :=
  let candidates := genCandidates gs color
  let safe := candidates.filter (fun mv => !(kingInCheck mv.next color))
  if kingInCheck gs color then safe
  else if safe.isEmpty then candidates else safe

/-- The material weights of `evaluate`. -/
def pieceVal : PieceType → ℚ
  | .K => 5000
  | .Q => 900
  | .R => 500
  | .B => 330
  | .N => 320
  | .P => 100

/-- Source `evaluate(gs, forColor)`.  JS numbers are modelled by rationals;
every value the source computes here (sums of integers and halves, and the
±1e9 terminal scores) is exactly representable, so the model is exact. -/
def evaluate (gs : GameState) (forColor : Color) : ℚ :=
  if gs.winner.isSome then (if gs.winner = some forColor then 1000000000 else -1000000000)
  else
    let material := gs.board.foldl (fun sc sq =>
      match sq.occupant with
      | .piece p =>
        let s := pieceVal p.type
        let sc1 := sc + (if p.color = forColor then s else -s)
        if inZone sq.rank then sc1 + (if p.color = forColor then 4 else -4) else sc1
      | _ => sc) 0
    let myMoves := (generateMoves gs forColor).length
    let oppMoves := (generateMoves gs (flipColor forColor)).length
    material + ((myMoves : ℚ) - (oppMoves : ℚ)) * (1 / 2)

/-- JS numbers as used by the minimax driver: finite rationals extended by
the two infinities used as initial bounds. -/
inductive JNum
  | negInf
  | fin (q : ℚ)
  | posInf
deriving Repr, DecidableEq

/-- `a <= b` on extended values. -/
def JNum.ble : JNum → JNum → Bool
  | .negInf, _ => true
  | _, .posInf => true
  | .fin a, .fin b => a ≤ b
  | .posInf, .fin _ => false
  | .posInf, .negInf => false
  | .fin _, .negInf => false

/-- `a < b` on extended values. -/
def JNum.blt (a b : JNum) : Bool := !(JNum.ble b a)

/-- `Math.max`. -/
def JNum.max (a b : JNum) : JNum := if JNum.ble a b then b else a

/-- `Math.min`. -/
def JNum.min (a b : JNum) : JNum := if JNum.ble a b then a else b

/-- The maximizing alpha-beta loop body (`for(const mv of list)` with the
`beta <= alpha` break), abstracted over the recursive call. -/
def mmLoopMax (f : GameState → JNum → JNum → JNum) :
    List MoveCand → JNum → JNum → JNum → JNum
  | [], _, _, val => val
  | mv :: rest, alpha, beta, val =>
    let val1 := JNum.max val (f mv.next alpha beta)
    let alpha1 := JNum.max alpha val1
    if JNum.ble beta alpha1 then val1 else mmLoopMax f rest alpha1 beta val1

/-- The minimizing alpha-beta loop body. -/
def mmLoopMin (f : GameState → JNum → JNum → JNum) :
    List MoveCand → JNum → JNum → JNum → JNum
  | [], _, _, val => val
  | mv :: rest, alpha, beta, val =>
    let val1 := JNum.min val (f mv.next alpha beta)
    let beta1 := JNum.min beta val1
    if JNum.ble beta1 alpha then val1 else mmLoopMin f rest alpha beta1 val1

/-- Source `minimax(state, depth, alpha, beta, maximizing, maximizingColor)`
(recursion on the depth counter). -/
def minimaxGo (mc : Color) : Nat → GameState → JNum → JNum → Bool → JNum
  | 0, state, _, _, _ => JNum.fin (evaluate state mc)
  | d + 1, state, alpha, beta, maximizing =>
    if state.winner.isSome then JNum.fin (evaluate state mc)
    else
      let side := if maximizing then mc else flipColor mc
      let list := generateMoves state side
      if list.isEmpty then JNum.fin (evaluate state mc)
      else if maximizing then
        mmLoopMax (fun s a b => minimaxGo mc d s a b false) list alpha beta JNum.negInf
      else
        mmLoopMin (fun s a b => minimaxGo mc d s a b true) list alpha beta JNum.posInf

/-- The greedy loop of the Medium level. -/
def mediumLoop (color : Color) : List MoveCand → JNum → GameState → GameState
  | [], _, bestN => bestN
  | m :: rest, best, bestN =>
    let s := JNum.fin (evaluate m.next color)
    if JNum.blt best s then mediumLoop color rest s m.next
    else mediumLoop color rest best bestN

/-- The root maximization loop of the Hard level. -/
def hardLoop (color : Color) : List MoveCand → JNum → GameState → GameState
  | [], _, bestN => bestN
  | mv :: rest, bestScore, bestNext =>
    let sc := minimaxGo color 1 mv.next JNum.negInf JNum.posInf false
    if JNum.blt bestScore sc then hardLoop color rest sc mv.next
    else hardLoop color rest bestScore bestNext

/-- Source `pickAiMove(gs)`.  The Easy level sorts the candidate list with a
random comparator; that sort is modelled by the explicit permutation
parameter `shuf` (the source result is `sorted[0]`, an element of the list;
if `shuf` were to return an empty list the embedding falls back to the
first candidate). -/
def pickAiMove (shuf : List MoveCand → List MoveCand) (gs : GameState) : GameState :=
  let color := gs.ai.cpuPlays
  let moves := generateMoves gs color
  match moves with
  | [] => gs
  | m0 :: _ =>
    match gs.ai.level with
    | .Easy => ((shuf moves).headD m0).next
    | .Medium => mediumLoop color moves JNum.negInf m0.next
    | .Hard => hardLoop color moves JNum.negInf m0.next

/-- The bag of blue symbols built in `createInitialBoard` (two armies worth,
in the field order of `ChrysalisStock`). -/
def bag0 : List PieceType :=
  [.K, .K, .Q, .Q, .R, .R, .R, .R, .B, .B, .B, .B, .N, .N, .N, .N,
   .P, .P, .P, .P, .P, .P, .P, .P, .P, .P, .P, .P, .P, .P, .P, .P]

/-- Swap two positions of the bag (the destructuring swap of the source
Fisher-Yates loop). -/
def swapL (l : List PieceType) (i j : Nat) : List PieceType :=
  let ai := l.getD i .P
  let aj := l.getD j .P
  (l.set i aj).set j ai

/-- The Fisher-Yates loop, from index `i` down to 1; `rand i` models the
source `Math.floor(Math.random() * (i + 1))` (so a faithful run has
`rand i ≤ i`). -/
def fyAux (rand : Nat → Nat) : List PieceType → Nat → List PieceType
  | l, 0 => l
  | l, i + 1 => fyAux rand (swapL l (i + 1) (rand (i + 1))) i

/-- The shuffled symbol bag. -/
def shuffledBag (rand : Nat → Nat) : List PieceType :=
  fyAux rand bag0 (bag0.length - 1)

/-- The 64 (rank, file) pairs in the construction order of the source board
(rank 1..8 outer, file 0..7 inner). -/
def boardCoords : List (Nat × Nat) :=
  (((List.range 8).map (fun i => i + 1)).map
    (fun r => (List.range 8).map (fun f => (r, f)))).flatten

/-- Source `createInitialBoard()`: blue symbols on ranks 3..6 taken from the
shuffled bag in sweep order (index `(rank - 3) * 8 + file`), black
metamorphs on ranks 1..2, white metamorphs on ranks 7..8. -/
def createInitialBoard (rand : Nat → Nat) : List Square :=
  let bag := shuffledBag rand
  boardCoords.map (fun rf =>
    { file := rf.2, rank := rf.1,
      blueSymbol := if inZone rf.1 then some (bag.getD ((rf.1 - 3) * 8 + rf.2) .P) else none,
      occupant :=
        if rf.1 = 1 ∨ rf.1 = 2 then .metamorph .black
        else if rf.1 = 7 ∨ rf.1 = 8 then .metamorph .white
        else .empty })

/-- Source `initialGame()`. -/
def initialGame (rand : Nat → Nat) : GameState :=
  { board := createInitialBoard rand, turn := .white, moveNumber := 1,
    stock := ⟨emptyStock, emptyStock⟩, quietus := ⟨zeroStock, zeroStock⟩,
    kingOnBoard := ⟨false, false⟩, kingProtectedUntil := ⟨none, none⟩,
    selected := none, promotion := none, message := none, winner := none,
    winReason := none, ai := ⟨.human, .black, .Medium⟩, lastMove := none }

/-- Modelled from the spec, §4.1: the landing rule of standard chess
geometry with no chrysalis-zone restriction (used to compare the
generator for loan pieces against the specified geometry). -/
def specCanLand (board : List Square) (color : Color) (nf nr : Int) : Bool :=
  if ¬ inBoundsI nf nr then false
  else match findFRI board nf nr with
    | some s => occAllowsLand color s.occupant
    | none => false

/-- Modelled from the spec, §4.1: a sliding ray stopping at the first
occupant, capturing only opposing pieces, with no zone restriction. -/
def specRayGo (board : List Square) (color : Color) (df dr : Int) :
    Nat → Int → Int → List (Int × Int)
  | 0, _, _ => []
  | fuel + 1, nf, nr =>
    if ¬ inBoundsI nf nr then []
    else match findFRI board nf nr with
      | none => []
      | some s =>
        match s.occupant with
        | .empty => (nf, nr) :: specRayGo board color df dr fuel (nf + df) (nr + dr)
        | .metamorph _ => []
        | .piece p => if p.color != color then [(nf, nr)] else []

/-- Modelled from the spec, §4.1: one full ray. -/
def specRayMoves (board : List Square) (color : Color) (f0 r0 df dr : Int) :
    List (Int × Int) :=
  specRayGo board color df dr 8 (f0 + df) (r0 + dr)

/-- Modelled from the spec, §4.1: standard chess geometry per type (N: 8
knight offsets; B/R/Q: sliding rays; K: 8 adjacent squares; P: one step
forward if empty, diagonal-forward captures only), with no rank-3..6
restriction anywhere. -/
def specPieceGeometry (board : List Square) (p : PieceData) (f0 r0 : Int) :
    List (Int × Int) :=
  match p.type with
  | .N =>
    knightDeltas.filterMap (fun d =>
      if specCanLand board p.color (f0 + d.1) (r0 + d.2) then some (f0 + d.1, r0 + d.2)
      else none)
  | .B =>
    (bishopDirs.map (fun d => specRayMoves board p.color f0 r0 d.1 d.2)).flatten
  | .R =>
    (rookDirs.map (fun d => specRayMoves board p.color f0 r0 d.1 d.2)).flatten
  | .Q =>
    (queenDirs.map (fun d => specRayMoves board p.color f0 r0 d.1 d.2)).flatten
  | .K =>
    kingDeltas.filterMap (fun d =>
      if specCanLand board p.color (f0 + d.1) (r0 + d.2) then some (f0 + d.1, r0 + d.2)
      else none)
  | .P =>
    let dir : Int := if p.color = .white then -1 else 1
    let oneR := r0 + dir
    let forward :=
      if inBoundsI f0 oneR then
        match findFRI board f0 oneR with
        | some front => if front.occupant = .empty then [(f0, oneR)] else []
        | none => []
      else []
    let captures := ([(-1 : Int), 1]).filterMap (fun df =>
      let nf := f0 + df
      let nr := r0 + dir
      if ¬ inBoundsI nf nr then none
      else match findFRI board nf nr with
        | some s =>
          match s.occupant with
          | .piece o => if o.color != p.color then some (nf, nr) else none
          | _ => none
        | none => none)
    forward ++ captures

/-- The legal-move list `performMove` computes for the occupant of a square
(empty occupants generate nothing; the source would have rejected them
earlier). -/
def legalFor (gs : GameState) (sq : Square) : List (Int × Int) :=
  match sq.occupant with
  | .metamorph _ => legalMovesForMetamorph gs sq
  | .piece _ => legalMovesForPiece gs sq
  | .empty => []

/-- The loan flag of an occupant. -/
def occMustReturn : Occupant → Bool
  | .piece p => p.mustReturn
  | _ => false

/-- Whether an occupant is a non-loan differentiated piece of the given
color and type. -/
def isNonLoanPiece (c : Color) (t : PieceType) : Occupant → Bool
  | .piece p => (p.color == c) && (p.type == t) && !p.mustReturn
  | _ => false

/-- Number of non-loan pieces of a color and type on a board. -/
def nonLoanCount (board : List Square) (c : Color) (t : PieceType) : Nat :=
  board.countP (fun sq => isNonLoanPiece c t sq.occupant)

/-- Stock conservation: stock plus non-loan on-board count equals the
initial cap, for every color and type. -/
abbrev conservedSum (gs : GameState) : Prop :=
  ∀ c t, (gs.stock.get c).get t + nonLoanCount gs.board c t = INITIAL_COUNTS.get t

/-- No occupant of the board is a loan piece. -/
abbrev noLoans (board : List Square) : Prop :=
  ∀ sq ∈ board, occMustReturn sq.occupant = false

/-- Every stock entry is at most its initial cap. -/
abbrev stockLeCap (gs : GameState) : Prop :=
  ∀ c t, (gs.stock.get c).get t ≤ INITIAL_COUNTS.get t

/-- The state fields claim C1 requires to be left unchanged by a rejected
move (everything except the UI annotation fields): board, stock, quietus,
turn, moveNumber, kingOnBoard and promotion all agree. -/
abbrev sameCore (a b : GameState) : Prop :=
  a.board = b.board ∧ a.stock = b.stock ∧ a.quietus = b.quietus ∧ a.turn = b.turn ∧
    a.moveNumber = b.moveNumber ∧ a.kingOnBoard = b.kingOnBoard ∧ a.promotion = b.promotion

/-- The occupant of the square with the given id, if the square exists. -/
def occupantAt (gs : GameState) (id : SquareId) : Option Occupant :=
  (findId gs.board id).map Square.occupant

/-- Build a 64-square board from a function of (file, rank). -/
def mkBoard (f : Nat → Nat → Option PieceType × Occupant) : List Square :=
  boardCoords.map (fun rf =>
    { file := rf.2, rank := rf.1, blueSymbol := (f rf.2 rf.1).1,
      occupant := (f rf.2 rf.1).2 })

/-- A bare game state around a given board (everything else neutral). -/
def baseState (board : List Square) : GameState :=
  { board := board, turn := .white, moveNumber := 1,
    stock := ⟨zeroStock, zeroStock⟩, quietus := ⟨zeroStock, zeroStock⟩,
    kingOnBoard := ⟨false, false⟩, kingProtectedUntil := ⟨none, none⟩,
    selected := none, promotion := none, message := none, winner := none,
    winReason := none, ai := ⟨.human, .black, .Medium⟩, lastMove := none }

/-- An entirely empty board. -/
def emptyBoard : List Square := mkBoard (fun _ _ => (none, .empty))

/-- C1 counterexample state: an empty board (so any move request names an
unoccupied `from` square) with no message. -/
def c1State : GameState := baseState emptyBoard

/-- The pawn of the C2 counterexample. -/
def c2Piece : PieceData := ⟨.white, .P, 0, false, none⟩

/-- C2 counterexample state: a single non-loan white pawn on a3. -/
def c2State : GameState :=
  baseState (mkBoard (fun f r => (none, if f = 0 ∧ r = 3 then .piece c2Piece else .empty)))

/-- The a3 square of the C2 counterexample state. -/
def c2Sq : Square := ⟨0, 3, none, .piece c2Piece⟩

/-- C4 board: a black king on a4, a white rook on a3. -/
def c4Board : List Square := mkBoard (fun f r =>
  (none,
    if f = 0 ∧ r = 4 then .piece ⟨.black, .K, 2, false, none⟩
    else if f = 0 ∧ r = 3 then .piece ⟨.white, .R, 2, false, none⟩
    else .empty))

/-- C4 witness state (protection active): the black king is protected until
move 5, which is the current move number. -/
def c4State : GameState :=
  { baseState c4Board with
    turn := .white, moveNumber := 5,
    kingOnBoard := ⟨true, true⟩, kingProtectedUntil := ⟨none, some 5⟩ }

/-- C4 witness state (protection expired): same position but the protection
window names a different move number. -/
def c4bState : GameState :=
  { baseState c4Board with
    turn := .white, moveNumber := 6,
    kingOnBoard := ⟨true, true⟩, kingProtectedUntil := ⟨none, some 5⟩ }

/-- C4 witness state (king created by a transformation): a white metamorph
about to step onto a K-symbol square. -/
def c4cState : GameState :=
  { baseState (mkBoard (fun f r =>
      (if f = 4 ∧ r = 6 then some .K else none,
        if f = 4 ∧ r = 7 then .metamorph .white
        else if f = 0 ∧ r = 2 then .metamorph .black
        else .empty))) with
    turn := .white, moveNumber := 3,
    stock := ⟨⟨1, 0, 0, 0, 0, 0⟩, zeroStock⟩ }

/-- C5 counterexample state: a white loan queen on b1 (`returnByMove` 12)
just after its creating promotion was resolved; black to move at move 11. -/
def c5State : GameState :=
  { baseState (mkBoard (fun f r =>
      (none,
        if f = 0 ∧ r = 1 then .piece ⟨.white, .Q, 10, true, some 12⟩
        else if f = 4 ∧ r = 2 then .metamorph .black
        else .empty))) with
    turn := .black, moveNumber := 11, kingOnBoard := ⟨true, true⟩ }

/-- C5 witness state: white to move with a separate metamorph mover while
the white loan queen on b1 (deadline 12, outside the zone) stands by. -/
def c5WitState : GameState :=
  { baseState (mkBoard (fun f r =>
      (none,
        if f = 0 ∧ r = 1 then .piece ⟨.white, .Q, 10, true, some 12⟩
        else if f = 4 ∧ r = 7 then .metamorph .white
        else if f = 0 ∧ r = 6 then .metamorph .black
        else .empty))) with
    turn := .white, moveNumber := 11, kingOnBoard := ⟨true, true⟩ }

/-- C6 counterexample state: white captures the black king on a4 while a
black metamorph on h6 sits on a K symbol with king stock available, so the
sweep recreates a black king that is immediately checkmated. -/
def c6State : GameState :=
  { baseState (mkBoard (fun f r =>
      (if f = 7 ∧ r = 6 then some .K else none,
        if f = 0 ∧ r = 4 then .piece ⟨.black, .K, 1, false, none⟩
        else if f = 0 ∧ r = 3 then .piece ⟨.white, .R, 1, false, none⟩
        else if f = 6 ∧ r = 3 then .piece ⟨.white, .R, 1, false, none⟩
        else if f = 7 ∧ r = 3 then .piece ⟨.white, .Q, 1, false, none⟩
        else if f = 7 ∧ r = 6 then .metamorph .black
        else .empty))) with
    turn := .white, moveNumber := 5,
    stock := ⟨zeroStock, ⟨1, 0, 0, 0, 0, 0⟩⟩, kingOnBoard := ⟨true, true⟩ }

/-- C6 witness state: a clean back-rank-style mate inside the zone; the
white rook on h4 is about to slide to f4, leaving the black king on a4 in
check with every escape square covered. -/
def c6WitState : GameState :=
  { baseState (mkBoard (fun f r =>
      (none,
        if f = 0 ∧ r = 4 then .piece ⟨.black, .K, 1, false, none⟩
        else if f = 7 ∧ r = 4 then .piece ⟨.white, .R, 1, false, none⟩
        else if f = 5 ∧ r = 3 then .piece ⟨.white, .R, 1, false, none⟩
        else if f = 5 ∧ r = 5 then .piece ⟨.white, .R, 1, false, none⟩
        else .empty))) with
    turn := .white, moveNumber := 7, kingOnBoard := ⟨true, true⟩ }

/-- C7 counterexample state: a promotion is pending for white yet it is
white to move (the position after the opponent moved through the pending
promotion); white has a mobile metamorph. -/
def c7State : GameState :=
  { baseState (mkBoard (fun f r =>
      (none,
        if f = 4 ∧ r = 7 then .metamorph .white
        else if f = 0 ∧ r = 2 then .metamorph .black
        else .empty))) with
    turn := .white, promotion := some ((0, 1), .white) }

/-- C8 counterexample state: the only geometric move of black (a rook) is a
king capture that the guard rejects because black has no king on board. -/
def c8State : GameState :=
  { baseState (mkBoard (fun f r =>
      (none,
        if f = 0 ∧ r = 4 then .piece ⟨.black, .R, 1, false, none⟩
        else if f = 1 ∧ r = 4 then .metamorph .white
        else if f = 0 ∧ r = 3 then .metamorph .white
        else if f = 0 ∧ r = 5 then .piece ⟨.white, .K, 1, false, none⟩
        else .empty))) with
    turn := .black, moveNumber := 3, kingOnBoard := ⟨true, false⟩ }

/-- The rook square of the C8 counterexample state. -/
def c8RookSq : Square := ⟨0, 4, none, .piece ⟨.black, .R, 1, false, none⟩⟩

/-- C10 counterexample state: the winner is already set but the message
field is empty, so the game-over early return survives the message filter
of `generateMoves`. -/
def c10State : GameState :=
  { baseState (mkBoard (fun f r =>
      (none, if f = 4 ∧ r = 2 then .metamorph .black else .empty))) with
    turn := .black, winner := some .white, winReason := some "king captured" }

/-- C10 witness state: a position with no winner in which black has a
surviving candidate move (both sides keep a mobile metamorph, so the move
does not end the game). -/
def c10bState : GameState :=
  { baseState (mkBoard (fun f r =>
      (none,
        if f = 4 ∧ r = 2 then .metamorph .black
        else if f = 4 ∧ r = 7 then .metamorph .white
        else .empty))) with
    turn := .black }

/-- The unique candidate `generateMoves` returns on the C10 witness state. -/
def c10Cand : MoveCand :=
  (generateMoves c10bState .black).headD ⟨(0, 0), (0, 0), c10bState⟩

/-- C10 witness state for the no-candidate branch of `pickAiMove`: an empty
board offers the cpu color no moves at all. -/
def c10EmptyState : GameState :=
  { baseState emptyBoard with ai := ⟨.cpu, .black, .Medium⟩ }

/-- C3 and C9 witness randomness: the constant choice 0 (a legitimate run
of the shuffle). -/
def rand0 : Nat → Nat := fun _ => 0

/-- The C7 witness state: the pending-promotion position with the turn on
the opponent side (black), as the source actually produces it. -/
def c7bState : GameState := { c7State with turn := .black }

/-- The loan queen square of the C5 counterexample state (used as the C2
witness for the loan-piece geometry equality). -/
def c5LoanSq : Square := ⟨0, 1, none, .piece ⟨.white, .Q, 10, true, some 12⟩⟩

/-- The blue symbols carried by the squares of ranks 3..6 of a board, in
board order. -/
def boardSymbols (board : List Square) : List PieceType :=
  board.filterMap (fun sq => if inZone sq.rank then sq.blueSymbol else none)

/- ===================================================================== -/
/- Lemmas and claim theorems                                             -/
/- ===================================================================== -/

theorem flipColor_ne (c : Color) : flipColor c ≠ c := by
  cases c <;> simp [flipColor]

theorem ByColor.get_set_same {α : Type} (b : ByColor α) (c : Color) (v : α) :
    (b.set c v).get c = v := by
  cases c <;> rfl

theorem ByColor.get_set_ne {α : Type} (b : ByColor α) (c c' : Color) (v : α)
    (h : c' ≠ c) : (b.set c v).get c' = b.get c' := by
  cases c <;> cases c' <;> first | rfl | exact absurd rfl h

theorem ChrysalisStock.get_set_same_type (s : ChrysalisStock) (t : PieceType) (v : Nat) :
    (s.set t v).get t = v := by
  cases t <;> rfl

theorem ChrysalisStock.get_set_ne_type (s : ChrysalisStock) (t t' : PieceType) (v : Nat)
    (h : t' ≠ t) : (s.set t v).get t' = s.get t' := by
  cases t <;> cases t' <;> first | rfl | exact absurd rfl h

theorem pm_winner (gs : GameState) (f t : SquareId) (h : gs.winner.isSome = true) :
    performMove gs f t = gs := by
  unfold performMove
  simp [h]

theorem pm_emptyFrom (gs : GameState) (f t : SquareId) (sF : Square)
    (hF : findId gs.board f = some sF) (hocc : sF.occupant = .empty) :
    performMove gs f t = gs := by
  unfold performMove
  by_cases hw : gs.winner.isSome
  · simp [hw]
  · rcases hT : findId gs.board t with _ | sT <;>
      simp only [hw, Bool.false_eq_true, if_false, hF, hT, hocc]

theorem pm_wrongColor (gs : GameState) (f t : SquareId) (sF : Square) (c : Color)
    (hF : findId gs.board f = some sF) (hocc : occColor sF.occupant = some c)
    (hne : c ≠ gs.turn) :
    performMove gs f t = gs := by
  unfold performMove
  by_cases hw : gs.winner.isSome
  · simp [hw]
  · rcases hT : findId gs.board t with _ | sT <;>
      rcases ho : sF.occupant with _ | mc | p <;>
      simp only [ho, occColor, Option.some.injEq] at hocc <;>
      simp only [hw, Bool.false_eq_true, if_false, hF, hT, ho] <;>
      first
        | rfl
        | (subst hocc; simp [hne])

theorem pm_toChecked (gs : GameState) (f t : SquareId) (sF sT : Square)
    (hW : gs.winner = none)
    (hF : findId gs.board f = some sF) (hT : findId gs.board t = some sT)
    (hC : occColor sF.occupant = some gs.turn) :
    performMove gs f t = performMoveChecked gs f t sF.occupant gs.turn (legalFor gs sF) sT := by
  have hw : gs.winner.isSome = false := by rw [hW]; rfl
  unfold performMove
  rcases ho : sF.occupant with _ | mc | p <;>
    simp only [ho, occColor, Option.some.injEq] at hC
  · exact absurd hC (by simp)
  · subst hC
    simp [hw, hF, hT, ho, legalFor]
  · rw [← hC]
    simp [hw, hF, hT, ho, legalFor, ← hC]

theorem pmc_illegal (gs : GameState) (f t : SquareId) (mover : Occupant) (mc : Color)
    (legal : List (Int × Int)) (sT : Square)
    (hL : legal.any (hitsSquare sT) = false) :
    performMoveChecked gs f t mover mc legal sT = { gs with message := some "Illegal move." } := by
  simp [performMoveChecked, hL]

theorem pmc_guard (gs : GameState) (f t : SquareId) (mover : Occupant) (mc : Color)
    (legal : List (Int × Int)) (sT : Square) (msg : String)
    (hL : legal.any (hitsSquare sT) = true)
    (hG : kingGuardMsg gs mc sT.occupant = some msg) :
    performMoveChecked gs f t mover mc legal sT = { gs with message := some msg } := by
  simp [performMoveChecked, hL, hG]

theorem pmc_accept (gs : GameState) (f t : SquareId) (mover : Occupant) (mc : Color)
    (legal : List (Int × Int)) (sT : Square)
    (hL : legal.any (hitsSquare sT) = true)
    (hG : kingGuardMsg gs mc sT.occupant = none) :
    performMoveChecked gs f t mover mc legal sT = performMoveAccept gs f t mover sT mc := by
  simp [performMoveChecked, hL, hG]

theorem kingGuardMsg_noKing (gs : GameState) (mc : Color) (pk : PieceData)
    (hk : pk.type = .K) (hkob : gs.kingOnBoard.get mc = false) :
    kingGuardMsg gs mc (.piece pk) =
      some "You cannot take the king without your own king on the board." := by
  simp [kingGuardMsg, hk, hkob]

theorem kingGuardMsg_protected (gs : GameState) (mc : Color) (pk : PieceData)
    (hk : pk.type = .K) (hkob : gs.kingOnBoard.get mc = true)
    (hprot : gs.kingProtectedUntil.get pk.color = some gs.moveNumber) :
    kingGuardMsg gs mc (.piece pk) = some "That king is protected this turn." := by
  simp [kingGuardMsg, hk, hkob, hprot]

/-- Claim C1, amended.  The six soft-failure cases of `performMove` return
the state with board, stock, quietus, turn, moveNumber, kingOnBoard and
promotion unchanged (the equations below are stronger: each case is the
exact returned state), and `performMove` is a total function (it never
throws).  Amendment forced by the counterexample: only the
illegal-destination case and the two king-capture guards annotate the
result with a human-readable message; the game-over, empty-from and
wrong-color cases return the input state as-is, message included. -/
theorem claim_C1 (gs : GameState) (f t : SquareId) :
    (gs.winner.isSome = true → performMove gs f t = gs)
    ∧ (∀ sF, findId gs.board f = some sF → sF.occupant = .empty →
        performMove gs f t = gs)
    ∧ (∀ sF c, findId gs.board f = some sF → occColor sF.occupant = some c →
        c ≠ gs.turn → performMove gs f t = gs)
    ∧ (∀ sF sT, gs.winner = none → findId gs.board f = some sF →
        findId gs.board t = some sT → occColor sF.occupant = some gs.turn →
        (legalFor gs sF).any (hitsSquare sT) = false →
        performMove gs f t = { gs with message := some "Illegal move." })
    ∧ (∀ sF sT pk, gs.winner = none → findId gs.board f = some sF →
        findId gs.board t = some sT → occColor sF.occupant = some gs.turn →
        (legalFor gs sF).any (hitsSquare sT) = true →
        sT.occupant = .piece pk → pk.type = .K →
        gs.kingOnBoard.get gs.turn = false →
        performMove gs f t =
          { gs with message := some "You cannot take the king without your own king on the board." })
    ∧ (∀ sF sT pk, gs.winner = none → findId gs.board f = some sF →
        findId gs.board t = some sT → occColor sF.occupant = some gs.turn →
        (legalFor gs sF).any (hitsSquare sT) = true →
        sT.occupant = .piece pk → pk.type = .K →
        gs.kingOnBoard.get gs.turn = true →
        gs.kingProtectedUntil.get pk.color = some gs.moveNumber →
        performMove gs f t = { gs with message := some "That king is protected this turn." }) := by
  refine ⟨fun h => pm_winner gs f t h,
          fun sF hF hocc => pm_emptyFrom gs f t sF hF hocc,
          fun sF c hF hocc hne => pm_wrongColor gs f t sF c hF hocc hne,
          fun sF sT hW hF hT hC hL => ?_, fun sF sT pk hW hF hT hC hL hTo hk hkob => ?_,
          fun sF sT pk hW hF hT hC hL hTo hk hkob hprot => ?_⟩
  · rw [pm_toChecked gs f t sF sT hW hF hT hC, pmc_illegal _ _ _ _ _ _ _ hL]
  · rw [pm_toChecked gs f t sF sT hW hF hT hC,
      pmc_guard _ _ _ _ _ _ _ _ hL (by rw [hTo]; exact kingGuardMsg_noKing gs gs.turn pk hk hkob)]
  · rw [pm_toChecked gs f t sF sT hW hF hT hC,
      pmc_guard _ _ _ _ _ _ _ _ hL
        (by rw [hTo]; exact kingGuardMsg_protected gs gs.turn pk hk hkob hprot)]

/-- Claim C1 counterexample: a state with no winner, no message and an
empty `from` square.  The claim says every soft failure annotates the
result with a human-readable message; here the move fails softly (no
occupant at `from`) yet the returned state carries no message at all. -/
theorem claim_C1_cex :
    occupantAt c1State (0, 1) = some .empty ∧
    c1State.winner = none ∧
    performMove c1State (0, 1) (0, 2) = c1State ∧
    (performMove c1State (0, 1) (0, 2)).message = none := by
  exact ⟨by decide, rfl, by decide, by decide⟩

/-- Witness for claim C1: each of the six cases discharged at a concrete
state. -/
theorem claim_C1_witness :
    performMove c10State (4, 2) (4, 3) = c10State ∧
    performMove c1State (0, 1) (0, 2) = c1State ∧
    performMove c7bState (4, 7) (4, 6) = c7bState ∧
    performMove c4State (0, 3) (1, 4) = { c4State with message := some "Illegal move." } ∧
    performMove c8State (0, 4) (0, 5) =
      { c8State with message := some "You cannot take the king without your own king on the board." } ∧
    performMove c4State (0, 3) (0, 4) =
      { c4State with message := some "That king is protected this turn." } := by
  refine ⟨(claim_C1 c10State (4, 2) (4, 3)).1 rfl,
          (claim_C1 c1State (0, 1) (0, 2)).2.1 ⟨0, 1, none, .empty⟩ (by decide) rfl,
          (claim_C1 c7bState (4, 7) (4, 6)).2.2.1 ⟨4, 7, none, .metamorph .white⟩ .white
            (by decide) rfl (by decide),
          (claim_C1 c4State (0, 3) (1, 4)).2.2.2.1 ⟨0, 3, none, .piece ⟨.white, .R, 2, false, none⟩⟩
            ⟨1, 4, none, .empty⟩ rfl (by decide) (by decide) rfl (by decide),
          (claim_C1 c8State (0, 4) (0, 5)).2.2.2.2.1 c8RookSq
            ⟨0, 5, none, .piece ⟨.white, .K, 1, false, none⟩⟩ ⟨.white, .K, 1, false, none⟩
            rfl (by decide) (by decide) rfl (by decide) rfl rfl rfl,
          (claim_C1 c4State (0, 3) (0, 4)).2.2.2.2.2 ⟨0, 3, none, .piece ⟨.white, .R, 2, false, none⟩⟩
            ⟨0, 4, none, .piece ⟨.black, .K, 2, false, none⟩⟩ ⟨.black, .K, 2, false, none⟩
            rfl (by decide) (by decide) rfl (by decide) rfl rfl rfl rfl⟩

/-- Claim C7, amended.  While a promotion is pending for color `c`, a move
of a `c` occupant is rejected unchanged provided `c` is not the side to
move; `performMove` itself never inspects the `promotion` field, and the
blocking the spec describes rests entirely on the turn having flipped to
the opponent when the promotion was created. -/
theorem claim_C7 (gs : GameState) (f t q : SquareId) (c : Color)
    (hp : gs.promotion = some (q, c)) (hne : c ≠ gs.turn)
    (sF : Square) (hF : findId gs.board f = some sF)
    (hc : occColor sF.occupant = some c) :
    performMove gs f t = gs :=
  pm_wrongColor gs f t sF c hF hc hne

/-- Claim C7 counterexample: a state with a pending white promotion and
white to move.  The claim says any white move is rejected unchanged until
the promotion is resolved; here the white metamorph move is accepted (the
move counter advances), because `performMove` never checks `promotion`. -/
theorem claim_C7_cex :
    c7State.promotion = some ((0, 1), .white) ∧
    c7State.turn = .white ∧
    occupantAt c7State (4, 7) = some (.metamorph .white) ∧
    performMove c7State (4, 7) (4, 6) ≠ c7State ∧
    (performMove c7State (4, 7) (4, 6)).moveNumber = c7State.moveNumber + 1 := by
  exact ⟨rfl, rfl, by decide, by decide, by decide⟩

/-- Witness for claim C7: the pending-promotion position with the turn on
the opponent side; the promoting color cannot move. -/
theorem claim_C7_witness : performMove c7bState (4, 7) (4, 6) = c7bState :=
  claim_C7 c7bState (4, 7) (4, 6) (0, 1) .white rfl (by decide)
    ⟨4, 7, none, .metamorph .white⟩ (by decide) rfl

theorem canLand_zone (board : List Square) (c : Color) (nf nr : Int)
    (h : canLand board true c nf nr = true) : inZoneI nr := by
  by_cases hz : inZoneI nr
  · exact hz
  · exfalso
    unfold canLand at h
    by_cases hb : inBoundsI nf nr
    · rw [if_neg (by simpa using hb), if_pos ⟨rfl, hz⟩] at h
      exact absurd h (by simp)
    · rw [if_pos hb] at h
      exact absurd h (by simp)

theorem rayGo_zone (board : List Square) (c : Color) (df dr : Int) :
    ∀ (fuel : Nat) (nf nr : Int) (m : Int × Int),
      m ∈ rayGo board true c df dr fuel nf nr → inZoneI m.2 := by
  intro fuel
  induction fuel with
  | zero => intro nf nr m h; simp [rayGo] at h
  | succ fuel ih =>
    intro nf nr m h
    by_cases hb : inBoundsI nf nr
    · by_cases hz : inZoneI nr
      · unfold rayGo at h
        rw [if_neg (by simpa using hb), if_neg (by simp [hz])] at h
        rcases hfind : findFRI board nf nr with _ | s
        · simp only [hfind] at h
          simp at h
        · simp only [hfind] at h
          rcases hso : s.occupant with _ | mc | p <;> simp only [hso] at h
          · rcases List.mem_cons.mp h with h | h
            · subst h; exact hz
            · exact ih (nf + df) (nr + dr) m h
          · simp at h
          · by_cases hpc : (p.color != c) = true
            · rw [if_pos hpc] at h
              rcases List.mem_singleton.mp h with rfl; exact hz
            · rw [if_neg hpc] at h; simp at h
      · unfold rayGo at h
        rw [if_neg (by simpa using hb), if_pos ⟨rfl, hz⟩] at h
        simp at h
    · unfold rayGo at h
      rw [if_pos hb] at h
      simp at h

theorem pieceMovesAux_zone (board : List Square) (p : PieceData) (f0 r0 : Int)
    (hp : p.type ≠ .P) :
    ∀ m ∈ pieceMovesAux board true p f0 r0, inZoneI m.2 := by
  intro m hm
  unfold pieceMovesAux at hm
  have rays : ∀ (dirs : List (Int × Int)),
      m ∈ (dirs.map (fun d => rayMoves board true p.color f0 r0 d.1 d.2)).flatten →
      inZoneI m.2 := by
    intro dirs hmem
    rcases List.mem_flatten.mp hmem with ⟨l, hl, hml⟩
    rcases List.mem_map.mp hl with ⟨d, _, rfl⟩
    exact rayGo_zone board p.color d.1 d.2 8 (f0 + d.1) (r0 + d.2) m hml
  have lands : ∀ (deltas : List (Int × Int)),
      m ∈ deltas.filterMap (fun d =>
        if canLand board true p.color (f0 + d.1) (r0 + d.2) then some (f0 + d.1, r0 + d.2)
        else none) →
      inZoneI m.2 := by
    intro deltas hmem
    rcases List.mem_filterMap.mp hmem with ⟨d, _, hf⟩
    by_cases hc : canLand board true p.color (f0 + d.1) (r0 + d.2) = true
    · rw [if_pos hc] at hf
      rcases Option.some.injEq _ _ ▸ hf with rfl
      exact canLand_zone board p.color (f0 + d.1) (r0 + d.2) hc
    · rw [if_neg hc] at hf
      exact absurd hf (by simp)
  rcases ht : p.type <;> rw [ht] at hm
  · exact lands _ hm
  · exact rays _ hm
  · exact rays _ hm
  · exact rays _ hm
  · exact lands _ hm
  · exact absurd ht hp

theorem canLand_eq_spec (board : List Square) (c : Color) (nf nr : Int) :
    canLand board false c nf nr = specCanLand board c nf nr := by
  unfold canLand specCanLand
  by_cases hb : inBoundsI nf nr
  · rw [if_neg (by simpa using hb), if_neg (by simp), if_neg (by simpa using hb)]
  · rw [if_pos hb, if_pos hb]

theorem rayGo_eq_spec (board : List Square) (c : Color) (df dr : Int) :
    ∀ (fuel : Nat) (nf nr : Int),
      rayGo board false c df dr fuel nf nr = specRayGo board c df dr fuel nf nr := by
  intro fuel
  induction fuel with
  | zero => intro nf nr; rfl
  | succ fuel ih =>
    intro nf nr
    unfold rayGo specRayGo
    by_cases hb : inBoundsI nf nr
    · rw [if_neg (by simpa using hb), if_neg (by simp), if_neg (by simpa using hb)]
      rcases hf : findFRI board nf nr with _ | s <;> simp only [hf]
      rcases hso : s.occupant with _ | mc | p <;> simp only [hso]
      exact congrArg _ (ih (nf + df) (nr + dr))
    · rw [if_pos hb, if_pos hb]

theorem pieceMovesAux_eq_spec (board : List Square) (p : PieceData) (f0 r0 : Int) :
    pieceMovesAux board false p f0 r0 = specPieceGeometry board p f0 r0 := by
  have hland : (fun d : Int × Int =>
      if canLand board false p.color (f0 + d.1) (r0 + d.2) then some (f0 + d.1, r0 + d.2)
      else none) = (fun d : Int × Int =>
      if specCanLand board p.color (f0 + d.1) (r0 + d.2) then some (f0 + d.1, r0 + d.2)
      else none) := by
    funext d
    rw [canLand_eq_spec]
  have hray : (fun d : Int × Int => rayMoves board false p.color f0 r0 d.1 d.2) =
      (fun d : Int × Int => specRayMoves board p.color f0 r0 d.1 d.2) := by
    funext d
    unfold rayMoves specRayMoves
    rw [rayGo_eq_spec]
  unfold pieceMovesAux specPieceGeometry
  rcases p.type
  · rw [hland]
  · rw [hray]
  · rw [hray]
  · rw [hray]
  · rw [hland]
  · rfl

/-- Claim C2, amended.  A differentiated piece with `mustReturn = false`
whose type is not a pawn only generates destinations inside ranks 3..6; a
piece with `mustReturn = true` generates exactly the destinations of its
standard chess geometry with no zone restriction.  Amendment forced by the
counterexample: the pawn generator of `legalMovesForPiece` never consults
the zone flag, so a non-loan pawn can (and, to promote, must) leave
ranks 3..6. -/
theorem claim_C2 (gs : GameState) (sq : Square) (p : PieceData)
    (hocc : sq.occupant = .piece p) :
    (p.mustReturn = false → p.type ≠ .P →
      ∀ m ∈ legalMovesForPiece gs sq, inZoneI m.2)
    ∧ (p.mustReturn = true →
      legalMovesForPiece gs sq = specPieceGeometry gs.board p (sq.file : Int) (sq.rank : Int)) := by
  constructor
  · intro hmr hp m hm
    unfold legalMovesForPiece at hm
    simp only [hocc, hmr, Bool.not_false] at hm
    exact pieceMovesAux_zone gs.board p _ _ hp m hm
  · intro hmr
    unfold legalMovesForPiece
    simp only [hocc, hmr, Bool.not_true]
    exact pieceMovesAux_eq_spec gs.board p _ _

/-- Claim C2 counterexample: a non-loan white pawn on a3 has the
destination a2 in its generated move set, and rank 2 is outside ranks
3..6. -/
theorem claim_C2_cex :
    c2Sq.occupant = .piece c2Piece ∧ c2Piece.mustReturn = false ∧
    ((0 : Int), (2 : Int)) ∈ legalMovesForPiece c2State c2Sq ∧ ¬ inZoneI (2 : Int) :=
  ⟨rfl, rfl, by decide, by decide⟩

/-- Witness for claim C2: the zone bound checked on a concrete non-loan
rook, and the geometry equality checked on a concrete loan queen. -/
theorem claim_C2_witness :
    (∀ m ∈ legalMovesForPiece c8State c8RookSq, inZoneI m.2) ∧
    legalMovesForPiece c5State c5LoanSq =
      specPieceGeometry c5State.board ⟨.white, .Q, 10, true, some 12⟩ 0 1 :=
  ⟨(claim_C2 c8State c8RookSq ⟨.black, .R, 1, false, none⟩ rfl).1 rfl (by decide),
   (claim_C2 c5State c5LoanSq ⟨.white, .Q, 10, true, some 12⟩ rfl).2 rfl⟩

theorem getD_set_ne : ∀ (l : List PieceType) (i j : Nat) (a d : PieceType), i ≠ j →
    (l.set i a).getD j d = l.getD j d
  | [], _, _, _, _, _ => rfl
  | _ :: _, 0, 0, _, _, h => absurd rfl h
  | _ :: _, 0, _ + 1, _, _, _ => rfl
  | _ :: _, _ + 1, 0, _, _, _ => rfl
  | _ :: l, i + 1, j + 1, a, d, h =>
    getD_set_ne l i j a d (fun e => h (by rw [e]))

theorem getD_set_self : ∀ (l : List PieceType) (i : Nat) (a d : PieceType), i < l.length →
    (l.set i a).getD i d = a
  | [], i, _, _, h => by simp at h
  | _ :: _, 0, _, _, _ => rfl
  | _ :: l, i + 1, a, d, h => getD_set_self l i a d (by simpa using h)

theorem count_set_bal : ∀ (l : List PieceType) (n : Nat) (a t : PieceType), n < l.length →
    (l.set n a).count t + (if l.getD n .P = t then 1 else 0)
      = l.count t + (if a = t then 1 else 0)
  | [], n, _, _, h => by simp at h
  | x :: l, 0, a, t, _ => by
    show (a :: l).count t + _ = (x :: l).count t + _
    rw [List.count_cons, List.count_cons]
    simp only [beq_iff_eq, List.getD_cons_zero]
    split_ifs <;> omega
  | x :: l, n + 1, a, t, h => by
    show (x :: l.set n a).count t + _ = (x :: l).count t + _
    rw [List.count_cons, List.count_cons]
    have ih := count_set_bal l n a t (by simpa using h)
    simp only [beq_iff_eq, List.getD_cons_succ]
    split_ifs at ih ⊢ <;> omega

theorem swapL_count (l : List PieceType) (i j : Nat) (t : PieceType)
    (hi : i < l.length) (hj : j < l.length) :
    (swapL l i j).count t = l.count t := by
  simp only [swapL]
  have hj1 : j < (l.set i (l.getD j .P)).length := by simpa using hj
  have h1 := count_set_bal l i (l.getD j .P) t hi
  have h2 := count_set_bal (l.set i (l.getD j .P)) j (l.getD i .P) t hj1
  by_cases hij : i = j
  · subst hij
    rw [getD_set_self l i (l.getD i .P) .P hi] at h2
    split_ifs at h1 h2 ⊢ <;> omega
  · rw [getD_set_ne l i j (l.getD j .P) .P hij] at h2
    split_ifs at h1 h2 ⊢ <;> omega

theorem swapL_length (l : List PieceType) (i j : Nat) : (swapL l i j).length = l.length := by
  simp [swapL]

theorem fyAux_length (rand : Nat → Nat) :
    ∀ (i : Nat) (l : List PieceType), (fyAux rand l i).length = l.length := by
  intro i
  induction i with
  | zero => intro l; rfl
  | succ i ih => intro l; rw [fyAux, ih, swapL_length]

theorem fyAux_count (rand : Nat → Nat) (hr : ∀ k, rand k ≤ k) (t : PieceType) :
    ∀ (i : Nat) (l : List PieceType), i < l.length → (fyAux rand l i).count t = l.count t := by
  intro i
  induction i with
  | zero => intro l _; rfl
  | succ i ih =>
    intro l h
    rw [fyAux]
    rw [ih _ (by rw [swapL_length]; omega)]
    exact swapL_count l (i + 1) (rand (i + 1)) t h (lt_of_le_of_lt (hr (i + 1)) h)

theorem shuffledBag_length (rand : Nat → Nat) : (shuffledBag rand).length = 32 := by
  unfold shuffledBag
  rw [fyAux_length]
  rfl

theorem shuffledBag_count (rand : Nat → Nat) (hr : ∀ k, rand k ≤ k) (t : PieceType) :
    (shuffledBag rand).count t = bag0.count t :=
  fyAux_count rand hr t 31 bag0 (by decide)

theorem map_getD_range {α : Type} (d : α) : ∀ (l : List α),
    (List.range l.length).map (fun k => l.getD k d) = l := by
  intro l
  induction l with
  | nil => rfl
  | cons a l ih =>
    rw [List.length_cons, List.range_succ_eq_map, List.map_cons, List.map_map]
    have hc : ((fun k => (a :: l).getD k d) ∘ Nat.succ) = (fun k => l.getD k d) := by
      funext k; rfl
    rw [hc, ih]
    rfl

theorem boardSymbols_initial (rand : Nat → Nat) :
    boardSymbols (initialGame rand).board
      = (List.range 32).map (fun k => (shuffledBag rand).getD k .P) := rfl

theorem boardSymbols_eq_bag (rand : Nat → Nat) :
    boardSymbols (initialGame rand).board = shuffledBag rand := by
  rw [boardSymbols_initial]
  conv_rhs => rw [← map_getD_range (.P) (shuffledBag rand), shuffledBag_length rand]

/-- Claim C9, confirmed.  For every run of the shuffle (every in-range
sequence of random index choices), `initialGame` yields: 32 metamorphs, 16
white filling ranks 7..8 and 16 black filling ranks 1..2; a blue symbol on
exactly the squares of ranks 3..6 whose multiset is two full armies
(K2 Q2 R4 B4 N4 P16); white to move at move number 1; full stock and empty
quietus for both colors. -/
theorem claim_C9 (rand : Nat → Nat) (hr : ∀ k, rand k ≤ k) :
    (initialGame rand).board.countP
        (fun sq => match sq.occupant with | .metamorph _ => true | _ => false) = 32
    ∧ (initialGame rand).board.countP (fun sq => sq.occupant == .metamorph .white) = 16
    ∧ (initialGame rand).board.countP (fun sq => sq.occupant == .metamorph .black) = 16
    ∧ (∀ sq ∈ (initialGame rand).board,
        (sq.rank = 1 ∨ sq.rank = 2 → sq.occupant = .metamorph .black)
        ∧ (sq.rank = 7 ∨ sq.rank = 8 → sq.occupant = .metamorph .white)
        ∧ (sq.blueSymbol.isSome ↔ inZone sq.rank))
    ∧ (boardSymbols (initialGame rand).board).length = 32
    ∧ (∀ t, (boardSymbols (initialGame rand).board).count t = 2 * INITIAL_COUNTS.get t)
    ∧ (initialGame rand).turn = .white
    ∧ (initialGame rand).moveNumber = 1
    ∧ (initialGame rand).stock = ⟨emptyStock, emptyStock⟩
    ∧ emptyStock = INITIAL_COUNTS
    ∧ (initialGame rand).quietus = ⟨zeroStock, zeroStock⟩ := by
  refine ⟨rfl, rfl, rfl, of_decide_eq_true rfl, ?_, ?_, rfl, rfl, rfl, rfl, rfl⟩
  · rw [boardSymbols_eq_bag]
    exact shuffledBag_length rand
  · intro t
    rw [boardSymbols_eq_bag, shuffledBag_count rand hr t]
    cases t <;> rfl

/-- Witness for claim C9: the constant-zero random sequence. -/
theorem claim_C9_witness :
    (boardSymbols (initialGame rand0).board).count .K = 2 * INITIAL_COUNTS.get .K ∧
    (boardSymbols (initialGame rand0).board).length = 32 ∧
    (initialGame rand0).board.countP
      (fun sq => match sq.occupant with | .metamorph _ => true | _ => false) = 32 := by
  have h := claim_C9 rand0 (fun k => Nat.zero_le k)
  exact ⟨h.2.2.2.2.2.1 .K, h.2.2.2.2.1, h.1⟩

theorem captureStep_board (next : GameState) (target : Occupant) :
    (captureStep next target).1.board = next.board := by
  unfold captureStep
  rcases target with _ | c | p <;> dsimp only <;> try rfl
  split_ifs <;> rfl

theorem captureStep_turn (next : GameState) (target : Occupant) :
    (captureStep next target).1.turn = next.turn := by
  unfold captureStep
  rcases target with _ | c | p <;> dsimp only <;> try rfl
  split_ifs <;> rfl

theorem captureStep_moveNumber (next : GameState) (target : Occupant) :
    (captureStep next target).1.moveNumber = next.moveNumber := by
  unfold captureStep
  rcases target with _ | c | p <;> dsimp only <;> try rfl
  split_ifs <;> rfl

theorem captureStep_stock (next : GameState) (target : Occupant) :
    (captureStep next target).1.stock = next.stock := by
  unfold captureStep
  rcases target with _ | c | p <;> dsimp only <;> try rfl
  split_ifs <;> rfl

theorem captureStep_kingProtectedUntil (next : GameState) (target : Occupant) :
    (captureStep next target).1.kingProtectedUntil = next.kingProtectedUntil := by
  unfold captureStep
  rcases target with _ | c | p <;> dsimp only <;> try rfl
  split_ifs <;> rfl

theorem captureStep_promotion (next : GameState) (target : Occupant) :
    (captureStep next target).1.promotion = next.promotion := by
  unfold captureStep
  rcases target with _ | c | p <;> dsimp only <;> try rfl
  split_ifs <;> rfl

theorem captureStep_message (next : GameState) (target : Occupant) :
    (captureStep next target).1.message = next.message := by
  unfold captureStep
  rcases target with _ | c | p <;> dsimp only <;> try rfl
  split_ifs <;> rfl

theorem captureStep_winner (next : GameState) (target : Occupant) :
    (captureStep next target).1.winner = next.winner := by
  unfold captureStep
  rcases target with _ | c | p <;> dsimp only <;> try rfl
  split_ifs <;> rfl

theorem moveOccStep_turn (next : GameState) (fromId toId : SquareId) (mover : Occupant) :
    (moveOccStep next fromId toId mover).turn = next.turn := by
  rfl

theorem moveOccStep_moveNumber (next : GameState) (fromId toId : SquareId) (mover : Occupant) :
    (moveOccStep next fromId toId mover).moveNumber = next.moveNumber := by
  rfl

theorem moveOccStep_stock (next : GameState) (fromId toId : SquareId) (mover : Occupant) :
    (moveOccStep next fromId toId mover).stock = next.stock := by
  rfl

theorem moveOccStep_quietus (next : GameState) (fromId toId : SquareId) (mover : Occupant) :
    (moveOccStep next fromId toId mover).quietus = next.quietus := by
  rfl

theorem moveOccStep_kingOnBoard (next : GameState) (fromId toId : SquareId) (mover : Occupant) :
    (moveOccStep next fromId toId mover).kingOnBoard = next.kingOnBoard := by
  rfl

theorem moveOccStep_kingProtectedUntil (next : GameState) (fromId toId : SquareId) (mover : Occupant) :
    (moveOccStep next fromId toId mover).kingProtectedUntil = next.kingProtectedUntil := by
  rfl

theorem moveOccStep_promotion (next : GameState) (fromId toId : SquareId) (mover : Occupant) :
    (moveOccStep next fromId toId mover).promotion = next.promotion := by
  rfl

theorem moveOccStep_message (next : GameState) (fromId toId : SquareId) (mover : Occupant) :
    (moveOccStep next fromId toId mover).message = next.message := by
  rfl

theorem moveOccStep_winner (next : GameState) (fromId toId : SquareId) (mover : Occupant) :
    (moveOccStep next fromId toId mover).winner = next.winner := by
  rfl

theorem safeReturnStep_turn (next : GameState) (toId : SquareId) :
    (safeReturnStep next toId).turn = next.turn := by
  unfold safeReturnStep
  rcases findId next.board toId with _ | sq <;> dsimp only <;> try rfl
  rcases sq.occupant with _ | c | p <;> dsimp only <;> try rfl
  split_ifs <;> rfl

theorem safeReturnStep_moveNumber (next : GameState) (toId : SquareId) :
    (safeReturnStep next toId).moveNumber = next.moveNumber := by
  unfold safeReturnStep
  rcases findId next.board toId with _ | sq <;> dsimp only <;> try rfl
  rcases sq.occupant with _ | c | p <;> dsimp only <;> try rfl
  split_ifs <;> rfl

theorem safeReturnStep_stock (next : GameState) (toId : SquareId) :
    (safeReturnStep next toId).stock = next.stock := by
  unfold safeReturnStep
  rcases findId next.board toId with _ | sq <;> dsimp only <;> try rfl
  rcases sq.occupant with _ | c | p <;> dsimp only <;> try rfl
  split_ifs <;> rfl

theorem safeReturnStep_quietus (next : GameState) (toId : SquareId) :
    (safeReturnStep next toId).quietus = next.quietus := by
  unfold safeReturnStep
  rcases findId next.board toId with _ | sq <;> dsimp only <;> try rfl
  rcases sq.occupant with _ | c | p <;> dsimp only <;> try rfl
  split_ifs <;> rfl

theorem safeReturnStep_kingOnBoard (next : GameState) (toId : SquareId) :
    (safeReturnStep next toId).kingOnBoard = next.kingOnBoard := by
  unfold safeReturnStep
  rcases findId next.board toId with _ | sq <;> dsimp only <;> try rfl
  rcases sq.occupant with _ | c | p <;> dsimp only <;> try rfl
  split_ifs <;> rfl

theorem safeReturnStep_kingProtectedUntil (next : GameState) (toId : SquareId) :
    (safeReturnStep next toId).kingProtectedUntil = next.kingProtectedUntil := by
  unfold safeReturnStep
  rcases findId next.board toId with _ | sq <;> dsimp only <;> try rfl
  rcases sq.occupant with _ | c | p <;> dsimp only <;> try rfl
  split_ifs <;> rfl

theorem safeReturnStep_promotion (next : GameState) (toId : SquareId) :
    (safeReturnStep next toId).promotion = next.promotion := by
  unfold safeReturnStep
  rcases findId next.board toId with _ | sq <;> dsimp only <;> try rfl
  rcases sq.occupant with _ | c | p <;> dsimp only <;> try rfl
  split_ifs <;> rfl

theorem safeReturnStep_message (next : GameState) (toId : SquareId) :
    (safeReturnStep next toId).message = next.message := by
  unfold safeReturnStep
  rcases findId next.board toId with _ | sq <;> dsimp only <;> try rfl
  rcases sq.occupant with _ | c | p <;> dsimp only <;> try rfl
  split_ifs <;> rfl

theorem safeReturnStep_winner (next : GameState) (toId : SquareId) :
    (safeReturnStep next toId).winner = next.winner := by
  unfold safeReturnStep
  rcases findId next.board toId with _ | sq <;> dsimp only <;> try rfl
  rcases sq.occupant with _ | c | p <;> dsimp only <;> try rfl
  split_ifs <;> rfl

theorem inlinePieceTransform_turn (next : GameState) (toId : SquareId) :
    (inlinePieceTransform next toId).turn = next.turn := by
  unfold inlinePieceTransform
  rcases findId next.board toId with _ | sq <;> dsimp only <;> try rfl
  rcases sq.occupant with _ | c | p <;> rcases hb : sq.blueSymbol with _ | needed <;>
    dsimp only <;> try rfl
  split_ifs <;> rfl

theorem inlinePieceTransform_moveNumber (next : GameState) (toId : SquareId) :
    (inlinePieceTransform next toId).moveNumber = next.moveNumber := by
  unfold inlinePieceTransform
  rcases findId next.board toId with _ | sq <;> dsimp only <;> try rfl
  rcases sq.occupant with _ | c | p <;> rcases hb : sq.blueSymbol with _ | needed <;>
    dsimp only <;> try rfl
  split_ifs <;> rfl

theorem inlinePieceTransform_quietus (next : GameState) (toId : SquareId) :
    (inlinePieceTransform next toId).quietus = next.quietus := by
  unfold inlinePieceTransform
  rcases findId next.board toId with _ | sq <;> dsimp only <;> try rfl
  rcases sq.occupant with _ | c | p <;> rcases hb : sq.blueSymbol with _ | needed <;>
    dsimp only <;> try rfl
  split_ifs <;> rfl

theorem inlinePieceTransform_promotion (next : GameState) (toId : SquareId) :
    (inlinePieceTransform next toId).promotion = next.promotion := by
  unfold inlinePieceTransform
  rcases findId next.board toId with _ | sq <;> dsimp only <;> try rfl
  rcases sq.occupant with _ | c | p <;> rcases hb : sq.blueSymbol with _ | needed <;>
    dsimp only <;> try rfl
  split_ifs <;> rfl

theorem inlinePieceTransform_message (next : GameState) (toId : SquareId) :
    (inlinePieceTransform next toId).message = next.message := by
  unfold inlinePieceTransform
  rcases findId next.board toId with _ | sq <;> dsimp only <;> try rfl
  rcases sq.occupant with _ | c | p <;> rcases hb : sq.blueSymbol with _ | needed <;>
    dsimp only <;> try rfl
  split_ifs <;> rfl

theorem inlinePieceTransform_winner (next : GameState) (toId : SquareId) :
    (inlinePieceTransform next toId).winner = next.winner := by
  unfold inlinePieceTransform
  rcases findId next.board toId with _ | sq <;> dsimp only <;> try rfl
  rcases sq.occupant with _ | c | p <;> rcases hb : sq.blueSymbol with _ | needed <;>
    dsimp only <;> try rfl
  split_ifs <;> rfl

theorem inlineMetaTransform_turn (next : GameState) (toId : SquareId) :
    (inlineMetaTransform next toId).turn = next.turn := by
  unfold inlineMetaTransform
  rcases findId next.board toId with _ | sq <;> dsimp only <;> try rfl
  rcases sq.occupant with _ | c | p <;> rcases hb : sq.blueSymbol with _ | needed <;>
    dsimp only <;> try rfl
  split_ifs <;> rfl

theorem inlineMetaTransform_moveNumber (next : GameState) (toId : SquareId) :
    (inlineMetaTransform next toId).moveNumber = next.moveNumber := by
  unfold inlineMetaTransform
  rcases findId next.board toId with _ | sq <;> dsimp only <;> try rfl
  rcases sq.occupant with _ | c | p <;> rcases hb : sq.blueSymbol with _ | needed <;>
    dsimp only <;> try rfl
  split_ifs <;> rfl

theorem inlineMetaTransform_quietus (next : GameState) (toId : SquareId) :
    (inlineMetaTransform next toId).quietus = next.quietus := by
  unfold inlineMetaTransform
  rcases findId next.board toId with _ | sq <;> dsimp only <;> try rfl
  rcases sq.occupant with _ | c | p <;> rcases hb : sq.blueSymbol with _ | needed <;>
    dsimp only <;> try rfl
  split_ifs <;> rfl

theorem inlineMetaTransform_promotion (next : GameState) (toId : SquareId) :
    (inlineMetaTransform next toId).promotion = next.promotion := by
  unfold inlineMetaTransform
  rcases findId next.board toId with _ | sq <;> dsimp only <;> try rfl
  rcases sq.occupant with _ | c | p <;> rcases hb : sq.blueSymbol with _ | needed <;>
    dsimp only <;> try rfl
  split_ifs <;> rfl

theorem inlineMetaTransform_message (next : GameState) (toId : SquareId) :
    (inlineMetaTransform next toId).message = next.message := by
  unfold inlineMetaTransform
  rcases findId next.board toId with _ | sq <;> dsimp only <;> try rfl
  rcases sq.occupant with _ | c | p <;> rcases hb : sq.blueSymbol with _ | needed <;>
    dsimp only <;> try rfl
  split_ifs <;> rfl

theorem inlineMetaTransform_winner (next : GameState) (toId : SquareId) :
    (inlineMetaTransform next toId).winner = next.winner := by
  unfold inlineMetaTransform
  rcases findId next.board toId with _ | sq <;> dsimp only <;> try rfl
  rcases sq.occupant with _ | c | p <;> rcases hb : sq.blueSymbol with _ | needed <;>
    dsimp only <;> try rfl
  split_ifs <;> rfl

theorem promoFlagStep_board (next : GameState) (toId : SquareId) :
    (promoFlagStep next toId).board = next.board := by
  unfold promoFlagStep
  rcases findId next.board toId with _ | sq <;> dsimp only <;> try rfl
  rcases sq.occupant with _ | c | p <;> dsimp only <;> try rfl
  split_ifs <;> rfl

theorem promoFlagStep_turn (next : GameState) (toId : SquareId) :
    (promoFlagStep next toId).turn = next.turn := by
  unfold promoFlagStep
  rcases findId next.board toId with _ | sq <;> dsimp only <;> try rfl
  rcases sq.occupant with _ | c | p <;> dsimp only <;> try rfl
  split_ifs <;> rfl

theorem promoFlagStep_moveNumber (next : GameState) (toId : SquareId) :
    (promoFlagStep next toId).moveNumber = next.moveNumber := by
  unfold promoFlagStep
  rcases findId next.board toId with _ | sq <;> dsimp only <;> try rfl
  rcases sq.occupant with _ | c | p <;> dsimp only <;> try rfl
  split_ifs <;> rfl

theorem promoFlagStep_stock (next : GameState) (toId : SquareId) :
    (promoFlagStep next toId).stock = next.stock := by
  unfold promoFlagStep
  rcases findId next.board toId with _ | sq <;> dsimp only <;> try rfl
  rcases sq.occupant with _ | c | p <;> dsimp only <;> try rfl
  split_ifs <;> rfl

theorem promoFlagStep_quietus (next : GameState) (toId : SquareId) :
    (promoFlagStep next toId).quietus = next.quietus := by
  unfold promoFlagStep
  rcases findId next.board toId with _ | sq <;> dsimp only <;> try rfl
  rcases sq.occupant with _ | c | p <;> dsimp only <;> try rfl
  split_ifs <;> rfl

theorem promoFlagStep_kingOnBoard (next : GameState) (toId : SquareId) :
    (promoFlagStep next toId).kingOnBoard = next.kingOnBoard := by
  unfold promoFlagStep
  rcases findId next.board toId with _ | sq <;> dsimp only <;> try rfl
  rcases sq.occupant with _ | c | p <;> dsimp only <;> try rfl
  split_ifs <;> rfl

theorem promoFlagStep_kingProtectedUntil (next : GameState) (toId : SquareId) :
    (promoFlagStep next toId).kingProtectedUntil = next.kingProtectedUntil := by
  unfold promoFlagStep
  rcases findId next.board toId with _ | sq <;> dsimp only <;> try rfl
  rcases sq.occupant with _ | c | p <;> dsimp only <;> try rfl
  split_ifs <;> rfl

theorem promoFlagStep_message (next : GameState) (toId : SquareId) :
    (promoFlagStep next toId).message = next.message := by
  unfold promoFlagStep
  rcases findId next.board toId with _ | sq <;> dsimp only <;> try rfl
  rcases sq.occupant with _ | c | p <;> dsimp only <;> try rfl
  split_ifs <;> rfl

theorem promoFlagStep_winner (next : GameState) (toId : SquareId) :
    (promoFlagStep next toId).winner = next.winner := by
  unfold promoFlagStep
  rcases findId next.board toId with _ | sq <;> dsimp only <;> try rfl
  rcases sq.occupant with _ | c | p <;> dsimp only <;> try rfl
  split_ifs <;> rfl

theorem expiryStep_turn (next : GameState) :
    (expiryStep next).turn = next.turn := by
  rfl

theorem expiryStep_moveNumber (next : GameState) :
    (expiryStep next).moveNumber = next.moveNumber := by
  rfl

theorem expiryStep_stock (next : GameState) :
    (expiryStep next).stock = next.stock := by
  rfl

theorem expiryStep_quietus (next : GameState) :
    (expiryStep next).quietus = next.quietus := by
  rfl

theorem expiryStep_kingProtectedUntil (next : GameState) :
    (expiryStep next).kingProtectedUntil = next.kingProtectedUntil := by
  rfl

theorem expiryStep_promotion (next : GameState) :
    (expiryStep next).promotion = next.promotion := by
  rfl

theorem expiryStep_message (next : GameState) :
    (expiryStep next).message = next.message := by
  rfl

theorem expiryStep_winner (next : GameState) :
    (expiryStep next).winner = next.winner := by
  rfl

theorem applyAutoTransforms_turn (gs : GameState) :
    (applyAutoTransforms gs).turn = gs.turn := by
  rfl

theorem applyAutoTransforms_moveNumber (gs : GameState) :
    (applyAutoTransforms gs).moveNumber = gs.moveNumber := by
  rfl

theorem applyAutoTransforms_quietus (gs : GameState) :
    (applyAutoTransforms gs).quietus = gs.quietus := by
  rfl

theorem applyAutoTransforms_promotion (gs : GameState) :
    (applyAutoTransforms gs).promotion = gs.promotion := by
  rfl

theorem applyAutoTransforms_message (gs : GameState) :
    (applyAutoTransforms gs).message = gs.message := by
  rfl

theorem applyAutoTransforms_winner (gs : GameState) :
    (applyAutoTransforms gs).winner = gs.winner := by
  rfl

theorem winStep_board (newGs : GameState) (ck : Option Color) :
    (winStep newGs ck).board = newGs.board := by
  unfold winStep
  rcases hdw : detectWin { newGs with selected := none, message := none }
      (flipColor newGs.turn) ck with _ | wr <;> simp only [hdw] <;> rfl

theorem winStep_turn (newGs : GameState) (ck : Option Color) :
    (winStep newGs ck).turn = newGs.turn := by
  unfold winStep
  rcases hdw : detectWin { newGs with selected := none, message := none }
      (flipColor newGs.turn) ck with _ | wr <;> simp only [hdw] <;> rfl

theorem winStep_moveNumber (newGs : GameState) (ck : Option Color) :
    (winStep newGs ck).moveNumber = newGs.moveNumber := by
  unfold winStep
  rcases hdw : detectWin { newGs with selected := none, message := none }
      (flipColor newGs.turn) ck with _ | wr <;> simp only [hdw] <;> rfl

theorem winStep_stock (newGs : GameState) (ck : Option Color) :
    (winStep newGs ck).stock = newGs.stock := by
  unfold winStep
  rcases hdw : detectWin { newGs with selected := none, message := none }
      (flipColor newGs.turn) ck with _ | wr <;> simp only [hdw] <;> rfl

theorem winStep_quietus (newGs : GameState) (ck : Option Color) :
    (winStep newGs ck).quietus = newGs.quietus := by
  unfold winStep
  rcases hdw : detectWin { newGs with selected := none, message := none }
      (flipColor newGs.turn) ck with _ | wr <;> simp only [hdw] <;> rfl

theorem winStep_kingOnBoard (newGs : GameState) (ck : Option Color) :
    (winStep newGs ck).kingOnBoard = newGs.kingOnBoard := by
  unfold winStep
  rcases hdw : detectWin { newGs with selected := none, message := none }
      (flipColor newGs.turn) ck with _ | wr <;> simp only [hdw] <;> rfl

theorem winStep_kingProtectedUntil (newGs : GameState) (ck : Option Color) :
    (winStep newGs ck).kingProtectedUntil = newGs.kingProtectedUntil := by
  unfold winStep
  rcases hdw : detectWin { newGs with selected := none, message := none }
      (flipColor newGs.turn) ck with _ | wr <;> simp only [hdw] <;> rfl

theorem winStep_promotion (newGs : GameState) (ck : Option Color) :
    (winStep newGs ck).promotion = newGs.promotion := by
  unfold winStep
  rcases hdw : detectWin { newGs with selected := none, message := none }
      (flipColor newGs.turn) ck with _ | wr <;> simp only [hdw] <;> rfl

theorem legalMovesForPiece_congr (a b : GameState) (h : a.board = b.board) (sq : Square) :
    legalMovesForPiece a sq = legalMovesForPiece b sq := by
  unfold legalMovesForPiece
  rw [h]

theorem legalMovesForMetamorph_congr (a b : GameState) (h : a.board = b.board) (sq : Square) :
    legalMovesForMetamorph a sq = legalMovesForMetamorph b sq := by
  unfold legalMovesForMetamorph
  rw [h]

theorem isSquareAttacked_congr (a b : GameState) (h : a.board = b.board)
    (f r : Int) (atk : Color) :
    isSquareAttacked a f r atk = isSquareAttacked b f r atk := by
  unfold isSquareAttacked legalMovesForPiece
  rw [h]

theorem findKingSquare_congr (a b : GameState) (h : a.board = b.board) (c : Color) :
    findKingSquare a c = findKingSquare b c := by
  unfold findKingSquare
  rw [h]

theorem hasAnyPawn_congr (a b : GameState) (h : a.board = b.board) (c : Color) :
    hasAnyPawn a c = hasAnyPawn b c := by
  unfold hasAnyPawn
  rw [h]

theorem hasAnyMetamorph_congr (a b : GameState) (h : a.board = b.board) (c : Color) :
    hasAnyMetamorph a c = hasAnyMetamorph b c := by
  unfold hasAnyMetamorph
  rw [h]

theorem anyPawnCanMove_congr (a b : GameState) (h : a.board = b.board) (c : Color) :
    anyPawnCanMove a c = anyPawnCanMove b c := by
  unfold anyPawnCanMove legalMovesForPiece
  rw [h]

theorem anyMetamorphCanMove_congr (a b : GameState) (h : a.board = b.board) (c : Color) :
    anyMetamorphCanMove a c = anyMetamorphCanMove b c := by
  unfold anyMetamorphCanMove legalMovesForMetamorph
  rw [h]

theorem checkmateResult_congr (a b : GameState) (hb : a.board = b.board)
    (ht : a.turn = b.turn) (hk : a.kingOnBoard = b.kingOnBoard) (lm : Color) :
    checkmateResult a lm = checkmateResult b lm := by
  have harr : (fun m : Int × Int => !(isSquareAttacked a m.1 m.2 lm)) =
      (fun m : Int × Int => !(isSquareAttacked b m.1 m.2 lm)) := by
    funext m
    rw [isSquareAttacked_congr a b hb]
  unfold checkmateResult
  dsimp only
  rw [ht, hk, findKingSquare_congr a b hb b.turn]
  rcases hf : findKingSquare b b.turn with _ | ksq <;> simp only [hf] <;> try rfl
  rw [isSquareAttacked_congr a b hb (ksq.file : Int) (ksq.rank : Int) lm,
    legalMovesForPiece_congr a b hb ksq, harr]

theorem immobilityFor_congr (a b : GameState) (hb : a.board = b.board)
    (hk : a.kingOnBoard = b.kingOnBoard) (c : Color) :
    immobilityFor a c = immobilityFor b c := by
  unfold immobilityFor
  rw [hk, hasAnyPawn_congr a b hb, hasAnyMetamorph_congr a b hb,
    anyPawnCanMove_congr a b hb, anyMetamorphCanMove_congr a b hb]

theorem immobilityResult_congr (a b : GameState) (hb : a.board = b.board)
    (hk : a.kingOnBoard = b.kingOnBoard) :
    immobilityResult a = immobilityResult b := by
  unfold immobilityResult
  rw [immobilityFor_congr a b hb hk, immobilityFor_congr a b hb hk]

theorem detectWin_congr (a b : GameState) (hb : a.board = b.board)
    (ht : a.turn = b.turn) (hk : a.kingOnBoard = b.kingOnBoard)
    (lm : Color) (ck : Option Color) :
    detectWin a lm ck = detectWin b lm ck := by
  unfold detectWin
  rcases ck with _ | c
  · rw [checkmateResult_congr a b hb ht hk, immobilityResult_congr a b hb hk]
  · rfl

theorem moveMid_winner (gs : GameState) (f t : SquareId) (mover : Occupant)
    (sTo : Square) (mc : Color) : (moveMid gs f t mover sTo mc).winner = gs.winner := by
  unfold moveMid
  rw [applyAutoTransforms_winner, expiryStep_winner]
  dsimp only
  rw [promoFlagStep_winner, inlineMetaTransform_winner, inlinePieceTransform_winner,
    safeReturnStep_winner]
  dsimp only
  rw [moveOccStep_winner, captureStep_winner]

theorem winStep_winner_of_message (M : GameState) (ck : Option Color)
    (hM : (winStep M ck).message = none) : (winStep M ck).winner = M.winner := by
  unfold winStep at hM ⊢
  rcases hdw : detectWin { M with selected := none, message := none } (flipColor M.turn) ck
      with _ | wr
  · simp only [hdw]
    try rfl
  · simp only [hdw] at hM
    exact absurd hM (by simp)

theorem performMoveChecked_winner_of_message (gs : GameState) (f t : SquareId)
    (mover : Occupant) (mc : Color) (legal : List (Int × Int)) (sT : Square)
    (hW : gs.winner = none)
    (hM : (performMoveChecked gs f t mover mc legal sT).message = none) :
    (performMoveChecked gs f t mover mc legal sT).winner = none := by
  unfold performMoveChecked at hM ⊢
  by_cases hL : legal.any (hitsSquare sT) = true
  · rw [if_neg (by simp [hL])] at hM ⊢
    rcases hG : kingGuardMsg gs mc sT.occupant with _ | m <;> simp only [hG] at hM ⊢
    · unfold performMoveAccept at hM ⊢
      rw [winStep_winner_of_message _ _ hM, moveMid_winner]
      exact hW
    · exact absurd hM (by simp)
  · rw [if_pos (by simpa using hL)] at hM
    exact absurd hM (by simp)

theorem performMove_winner_of_message (gs : GameState) (f t : SquareId)
    (hW : gs.winner = none) (hM : (performMove gs f t).message = none) :
    (performMove gs f t).winner = none := by
  have hw : gs.winner.isSome = false := by rw [hW]; rfl
  unfold performMove at hM ⊢
  rw [if_neg (by simp [hw])] at hM ⊢
  rcases hF : findId gs.board f with _ | sF <;> simp only [hF] at hM ⊢
  · exact hW
  rcases hT : findId gs.board t with _ | sT <;> simp only [hT] at hM ⊢
  · exact hW
  rcases hso : sF.occupant with _ | c | p <;> simp only [hso] at hM ⊢
  · exact hW
  · by_cases hc : c ≠ gs.turn
    · rw [if_pos hc] at hM ⊢
      exact hW
    · rw [if_neg hc] at hM ⊢
      exact performMoveChecked_winner_of_message gs f t _ _ _ sT hW hM
  · by_cases hc : p.color ≠ gs.turn
    · rw [if_pos hc] at hM ⊢
      exact hW
    · rw [if_neg hc] at hM ⊢
      exact performMoveChecked_winner_of_message gs f t _ _ _ sT hW hM

theorem applyPromotionChoice_winner (st : GameState) (ty : PieceType) :
    (applyPromotionChoice st ty).winner = st.winner := by
  unfold applyPromotionChoice
  rcases st.promotion with _ | pr <;> dsimp only <;> try rfl
  split_ifs <;> (try rfl) <;> rw [applyAutoTransforms_winner]

theorem applyPromotionChoice_message (st : GameState) (ty : PieceType) :
    (applyPromotionChoice st ty).message = st.message := by
  unfold applyPromotionChoice
  rcases st.promotion with _ | pr <;> dsimp only <;> try rfl
  split_ifs <;> (try rfl) <;> rw [applyAutoTransforms_message]

theorem aiResolvePromotion_winner (st : GameState) (color : Color) :
    (aiResolvePromotion st color).winner = st.winner := by
  unfold aiResolvePromotion
  rcases promoPref.find? (fun t => promotionAvailable st color t) with _ | ty
  · rfl
  · exact applyPromotionChoice_winner st ty

theorem aiResolvePromotion_message (st : GameState) (color : Color) :
    (aiResolvePromotion st color).message = st.message := by
  unfold aiResolvePromotion
  rcases promoPref.find? (fun t => promotionAvailable st color t) with _ | ty
  · rfl
  · exact applyPromotionChoice_message st ty

theorem candOf_mem_winner (base : GameState) (color : Color) (sq : Square) (m : Int × Int)
    (mv : MoveCand) (hW : base.winner = none)
    (hc : candOf base color sq m = some mv) :
    mv.next.winner = none ∧ mv.next.message = none := by
  unfold candOf at hc
  dsimp only at hc
  by_cases hm2 : (match (performMove base (sq.file, sq.rank) (m.1.toNat, m.2.toNat)).promotion with
      | some pr => if pr.2 = color
          then aiResolvePromotion (performMove base (sq.file, sq.rank) (m.1.toNat, m.2.toNat)) color
          else performMove base (sq.file, sq.rank) (m.1.toNat, m.2.toNat)
      | none => performMove base (sq.file, sq.rank) (m.1.toNat, m.2.toNat)).message.isNone
  · rw [if_pos hm2] at hc
    rcases Option.some.injEq _ _ ▸ hc with rfl
    dsimp only
    rcases hp : (performMove base (sq.file, sq.rank) (m.1.toNat, m.2.toNat)).promotion
        with _ | pr <;> simp only [hp] at hm2 ⊢
    · have hmsg : (performMove base (sq.file, sq.rank) (m.1.toNat, m.2.toNat)).message = none := by
        simpa using hm2
      exact ⟨performMove_winner_of_message base _ _ hW hmsg, hmsg⟩
    · by_cases hpc : pr.2 = color
      · rw [if_pos hpc] at hm2 ⊢
        have hmsg2 : (aiResolvePromotion
            (performMove base (sq.file, sq.rank) (m.1.toNat, m.2.toNat)) color).message = none := by
          simpa using hm2
        have hmsg : (performMove base (sq.file, sq.rank) (m.1.toNat, m.2.toNat)).message = none := by
          rw [aiResolvePromotion_message] at hmsg2
          exact hmsg2
        refine ⟨?_, hmsg2⟩
        rw [aiResolvePromotion_winner]
        exact performMove_winner_of_message base _ _ hW hmsg
      · rw [if_neg hpc] at hm2 ⊢
        have hmsg : (performMove base (sq.file, sq.rank) (m.1.toNat, m.2.toNat)).message = none := by
          simpa using hm2
        exact ⟨performMove_winner_of_message base _ _ hW hmsg, hmsg⟩
  · rw [if_neg hm2] at hc
    exact absurd hc (by simp)

theorem mem_genCandidates (gs : GameState) (color : Color) (mv : MoveCand)
    (h : mv ∈ genCandidates gs color) :
    ∃ sq m, candOf { gs with turn := color } color sq m = some mv := by
  unfold genCandidates at h
  rcases List.mem_flatten.mp h with ⟨l, hl, hml⟩
  rcases List.mem_map.mp hl with ⟨sq, hsq, rfl⟩
  rcases hso : sq.occupant with _ | c | p <;> simp only [hso] at hml
  · exact absurd hml (by simp)
  · split_ifs at hml with hc
    · rcases List.mem_filterMap.mp hml with ⟨m, _, hm⟩
      exact ⟨sq, m, hm⟩
    · exact absurd hml (by simp)
  · split_ifs at hml with hc
    · rcases List.mem_filterMap.mp hml with ⟨m, _, hm⟩
      exact ⟨sq, m, hm⟩
    · exact absurd hml (by simp)

theorem mem_generateMoves_cand (gs : GameState) (color : Color) (mv : MoveCand)
    (h : mv ∈ generateMoves gs color) : mv ∈ genCandidates gs color := by
  unfold generateMoves at h
  dsimp only at h
  split_ifs at h
  · exact List.mem_of_mem_filter h
  · exact h
  · exact List.mem_of_mem_filter h

/-- Claim C10, amended.  For every state whose `winner` field is unset,
every candidate returned by `generateMoves` has a resulting state with
`winner` unset (a game-ending move attaches a winner message, and
message-carrying candidates are discarded), and `pickAiMove` returns the
state unchanged whenever the candidate list is empty.  Amendment forced by
the counterexample: the guarantee needs `winner = none` on the input; on a
terminal state whose message field is empty, the game-over early return of
`performMove` survives the message filter and is itself offered as a
candidate. -/
theorem claim_C10 :
    (∀ (gs : GameState) (color : Color) (mv : MoveCand), gs.winner = none →
      mv ∈ generateMoves gs color → mv.next.winner = none ∧ mv.next.message = none)
    ∧ (∀ (shuf : List MoveCand → List MoveCand) (gs : GameState),
      generateMoves gs gs.ai.cpuPlays = [] → pickAiMove shuf gs = gs) := by
  constructor
  · intro gs color mv hW hmem
    rcases mem_genCandidates gs color mv (mem_generateMoves_cand gs color mv hmem)
      with ⟨sq, m, hc⟩
    exact candOf_mem_winner { gs with turn := color } color sq m mv hW hc
  · intro shuf gs hempty
    unfold pickAiMove
    dsimp only
    rw [hempty]

/-- Claim C10 counterexample: a terminal state (winner set) whose message
field is empty.  `generateMoves` returns a candidate whose resulting state
carries the winner, so the claimed winner-unset guarantee fails without the
no-winner hypothesis. -/
theorem claim_C10_cex :
    c10State.winner = some .white ∧
    (generateMoves c10State .black).length = 1 ∧
    (generateMoves c10State .black).all (fun mv => mv.next.winner == some .white) = true := by
  exact ⟨rfl, by decide, by decide⟩

/-- Witness for claim C10: a concrete candidate keeps `winner` unset, and
`pickAiMove` leaves a candidate-free state unchanged. -/
theorem claim_C10_witness :
    (c10Cand.next.winner = none ∧ c10Cand.next.message = none) ∧
    pickAiMove id c10EmptyState = c10EmptyState :=
  ⟨claim_C10.1 c10bState .black c10Cand rfl (by decide),
   claim_C10.2 id c10EmptyState (by decide)⟩

theorem candOf_some_message (base : GameState) (color : Color) (sq : Square) (m : Int × Int)
    (mv : MoveCand) (hc : candOf base color sq m = some mv) : mv.next.message = none := by
  unfold candOf at hc
  dsimp only at hc
  by_cases hm2 : (match (performMove base (sq.file, sq.rank) (m.1.toNat, m.2.toNat)).promotion with
      | some pr => if pr.2 = color
          then aiResolvePromotion (performMove base (sq.file, sq.rank) (m.1.toNat, m.2.toNat)) color
          else performMove base (sq.file, sq.rank) (m.1.toNat, m.2.toNat)
      | none => performMove base (sq.file, sq.rank) (m.1.toNat, m.2.toNat)).message.isNone
  · rw [if_pos hm2] at hc
    rcases Option.some.injEq _ _ ▸ hc with rfl
    simpa using hm2
  · rw [if_neg hm2] at hc
    exact absurd hc (by simp)

/-- Claim C8, amended.  Every candidate `generateMoves` returns survived the
soft-failure filter (its resulting state carries no message); when the
mover is in check only the king-safe subset is returned; when it is not in
check the result is non-empty whenever some surviving candidate exists
(the safe set if non-empty, else the full candidate set).  Amendment forced
by the counterexample: a geometrically legal move does not guarantee a
non-empty result, because every geometric move can be rejected by the
king-capture guards (or the game-over lock) and discarded. -/
theorem claim_C8 (gs : GameState) (color : Color) :
    (∀ mv ∈ generateMoves gs color, mv ∈ genCandidates gs color ∧ mv.next.message = none)
    ∧ (kingInCheck gs color = true →
        generateMoves gs color =
          (genCandidates gs color).filter (fun mv => !(kingInCheck mv.next color)))
    ∧ (kingInCheck gs color = false → genCandidates gs color ≠ [] →
        generateMoves gs color ≠ []) := by
  refine ⟨?_, ?_, ?_⟩
  · intro mv hmem
    have hcand := mem_generateMoves_cand gs color mv hmem
    rcases mem_genCandidates gs color mv hcand with ⟨sq, m, hc⟩
    exact ⟨hcand, candOf_some_message _ color sq m mv hc⟩
  · intro hchk
    unfold generateMoves
    dsimp only
    rw [if_pos hchk]
  · intro hchk hne
    unfold generateMoves
    dsimp only
    rw [if_neg (by simp [hchk])]
    by_cases he : (List.filter (fun mv => !kingInCheck mv.next color)
        (genCandidates gs color)).isEmpty = true
    · rw [if_pos he]
      exact hne
    · rw [if_neg he]
      intro hnil
      rw [hnil] at he
      exact he rfl

/-- Claim C8 counterexample: black has exactly one geometrically legal move
(a rook capturing the white king) but no king on board, so the guard
rejects it with a message and `generateMoves` returns the empty list. -/
theorem claim_C8_cex :
    c8RookSq ∈ c8State.board ∧
    c8RookSq.occupant = .piece ⟨.black, .R, 1, false, none⟩ ∧
    legalMovesForPiece c8State c8RookSq ≠ [] ∧
    generateMoves c8State .black = [] :=
  ⟨by decide, rfl, by decide, by decide⟩

/-- Witness for claim C8: a state with a surviving candidate and the mover
not in check yields a non-empty move list. -/
theorem claim_C8_witness : generateMoves c10bState .black ≠ [] :=
  (claim_C8 c10bState .black).2.2 (by decide) (by decide)

theorem ByColor.get_set_cases {α : Type} (b : ByColor α) (c c' : Color) (v : α) :
    (b.set c v).get c' = if c' = c then v else b.get c' := by
  by_cases h : c' = c
  · subst h
    rw [if_pos rfl, ByColor.get_set_same]
  · rw [if_neg h, ByColor.get_set_ne _ _ _ _ h]

theorem captureStep_kob_mono (next : GameState) (target : Occupant) (c : Color)
    (h : (captureStep next target).1.kingOnBoard.get c = true) :
    next.kingOnBoard.get c = true := by
  unfold captureStep at h
  rcases hso : target with _ | mc | p <;> rw [hso] at h <;> try exact h
  dsimp only at h
  by_cases hk : p.type = .K
  · rw [if_pos hk] at h
    dsimp only at h
    rw [ByColor.get_set_cases] at h
    by_cases hc : c = p.color
    · rw [if_pos hc] at h
      exact absurd h (by simp)
    · rw [if_neg hc] at h
      exact h
  · rw [if_neg hk] at h
    exact h

theorem expiryKob_mono (jm : Color) (mn : Nat) (c : Color) :
    ∀ (board : List Square) (kob : ByColor Bool),
      (expiryKob jm mn kob board).get c = true → kob.get c = true := by
  intro board
  induction board with
  | nil => intro kob h; exact h
  | cons sq rest ih =>
    intro kob h
    have h2 := ih (match sq.occupant with
      | .piece p =>
        match p.returnByTurn with
        | some rb =>
          if p.mustReturn = true ∧ p.color = jm ∧ rb ≤ mn ∧ ¬ inZone sq.rank ∧ p.type = .K
          then kob.set p.color false else kob
        | none => kob
      | _ => kob) h
    rcases hso : sq.occupant with _ | mc | p <;> rw [hso] at h2 <;> try exact h2
    dsimp only at h2
    rcases hrb : p.returnByTurn with _ | rb <;> rw [hrb] at h2 <;> try exact h2
    dsimp only at h2
    by_cases hcond : p.mustReturn = true ∧ p.color = jm ∧ rb ≤ mn ∧ ¬ inZone sq.rank ∧
        p.type = .K
    · rw [if_pos hcond] at h2
      rw [ByColor.get_set_cases] at h2
      by_cases hc : c = p.color
      · rw [if_pos hc] at h2
        exact absurd h2 (by simp)
      · rw [if_neg hc] at h2
        exact h2
    · rw [if_neg hcond] at h2
      exact h2

theorem inlinePieceTransform_king_cases (next : GameState) (toId : SquareId) (c : Color) :
    ((inlinePieceTransform next toId).kingOnBoard.get c = next.kingOnBoard.get c ∧
      (inlinePieceTransform next toId).kingProtectedUntil.get c
        = next.kingProtectedUntil.get c)
    ∨ ((inlinePieceTransform next toId).kingProtectedUntil.get c
        = some (next.moveNumber + 1))
    ∨ ((inlinePieceTransform next toId).kingOnBoard.get c = false) := by
  unfold inlinePieceTransform
  split
  case h_2 => left; exact ⟨rfl, rfl⟩
  split
  case h_2 => left; exact ⟨rfl, rfl⟩
  rename_i x1 sq hfind x2 x3 p needed hocc hbs
  by_cases hcond : inZone sq.rank ∧ p.type ≠ needed ∧ 0 < (next.stock.get p.color).get needed
  · rw [if_pos hcond]
    dsimp only
    by_cases hvac : p.type = .K ∧ needed ≠ .K
    · rw [if_pos hvac]
      dsimp only
      by_cases hK : needed = .K
      · exact absurd hK hvac.2
      · rw [if_neg hK]
        by_cases hc : c = p.color
        · right; right
          dsimp only
          rw [ByColor.get_set_cases, if_pos hc]
        · left
          dsimp only
          rw [ByColor.get_set_cases, if_neg hc]
          exact ⟨rfl, rfl⟩
    · rw [if_neg hvac]
      by_cases hK : needed = .K
      · rw [if_pos hK]
        by_cases hc : c = p.color
        · right; left
          dsimp only
          rw [ByColor.get_set_cases, if_pos hc]
        · left
          dsimp only
          rw [ByColor.get_set_cases, if_neg hc, ByColor.get_set_cases, if_neg hc]
          exact ⟨rfl, rfl⟩
      · rw [if_neg hK]
        left
        exact ⟨rfl, rfl⟩
  · rw [if_neg hcond]
    left
    exact ⟨rfl, rfl⟩

theorem inlineMetaTransform_king_cases (next : GameState) (toId : SquareId) (c : Color) :
    ((inlineMetaTransform next toId).kingOnBoard.get c = next.kingOnBoard.get c ∧
      (inlineMetaTransform next toId).kingProtectedUntil.get c
        = next.kingProtectedUntil.get c)
    ∨ ((inlineMetaTransform next toId).kingProtectedUntil.get c
        = some (next.moveNumber + 1))
    ∨ ((inlineMetaTransform next toId).kingOnBoard.get c = false) := by
  unfold inlineMetaTransform
  split
  case h_2 => left; exact ⟨rfl, rfl⟩
  split
  case h_2 => left; exact ⟨rfl, rfl⟩
  rename_i x1 sq hfind x2 x3 mc needed hocc hbs
  by_cases hcond : inZone sq.rank ∧ 0 < (next.stock.get mc).get needed
  · rw [if_pos hcond]
    dsimp only
    by_cases hK : needed = .K
    · rw [if_pos hK]
      by_cases hc : c = mc
      · right; left
        dsimp only
        rw [ByColor.get_set_cases, if_pos hc]
      · left
        dsimp only
        rw [ByColor.get_set_cases, if_neg hc, ByColor.get_set_cases, if_neg hc]
        exact ⟨rfl, rfl⟩
    · rw [if_neg hK]
      left
      exact ⟨rfl, rfl⟩
  · rw [if_neg hcond]
    left
    exact ⟨rfl, rfl⟩

theorem transformSquare_king_cases (mn : Nat) (st : SweepSt) (sq : Square) (c : Color) :
    ((transformSquare mn st sq).1.kingOnBoard.get c = st.kingOnBoard.get c ∧
      (transformSquare mn st sq).1.kingProtectedUntil.get c = st.kingProtectedUntil.get c)
    ∨ ((transformSquare mn st sq).1.kingProtectedUntil.get c = some mn)
    ∨ ((transformSquare mn st sq).1.kingOnBoard.get c = false) := by
  unfold transformSquare
  by_cases hz : ¬ inZone sq.rank
  · rw [if_pos hz]
    left; exact ⟨rfl, rfl⟩
  · rw [if_neg hz]
    split
    · left; exact ⟨rfl, rfl⟩
    · split
      · left; exact ⟨rfl, rfl⟩
      · rename_i needed hbs x mc hocc
        by_cases hs : 0 < (st.stock.get mc).get needed
        · rw [if_pos hs]
          dsimp only
          by_cases hK : needed = .K
          · rw [if_pos hK]
            by_cases hc : c = mc
            · right; left
              dsimp only
              rw [ByColor.get_set_cases, if_pos hc]
            · left
              dsimp only
              rw [ByColor.get_set_cases, if_neg hc, ByColor.get_set_cases, if_neg hc]
              exact ⟨rfl, rfl⟩
          · rw [if_neg hK]
            left
            exact ⟨rfl, rfl⟩
        · rw [if_neg hs]
          left
          exact ⟨rfl, rfl⟩
      · rename_i needed hbs x p hocc
        by_cases hcond : p.type ≠ needed ∧ 0 < (st.stock.get p.color).get needed
        · rw [if_pos hcond]
          dsimp only
          by_cases hvac : p.type = .K ∧ needed ≠ .K
          · rw [if_pos hvac]
            dsimp only
            by_cases hK : needed = .K
            · exact absurd hK hvac.2
            · rw [if_neg hK]
              by_cases hc : c = p.color
              · right; right
                dsimp only
                rw [ByColor.get_set_cases, if_pos hc]
              · left
                dsimp only
                rw [ByColor.get_set_cases, if_neg hc]
                exact ⟨rfl, rfl⟩
          · rw [if_neg hvac]
            by_cases hK : needed = .K
            · rw [if_pos hK]
              by_cases hc : c = p.color
              · right; left
                dsimp only
                rw [ByColor.get_set_cases, if_pos hc]
              · left
                dsimp only
                rw [ByColor.get_set_cases, if_neg hc, ByColor.get_set_cases, if_neg hc]
                exact ⟨rfl, rfl⟩
            · rw [if_neg hK]
              left
              exact ⟨rfl, rfl⟩
        · rw [if_neg hcond]
          left
          exact ⟨rfl, rfl⟩

theorem transformSquare_kingInv (mn : Nat) (st : SweepSt) (sq : Square) (c : Color)
    (h : st.kingOnBoard.get c = true → st.kingProtectedUntil.get c = some mn) :
    (transformSquare mn st sq).1.kingOnBoard.get c = true →
      (transformSquare mn st sq).1.kingProtectedUntil.get c = some mn := by
  intro hk
  rcases transformSquare_king_cases mn st sq c with ⟨h1, h2⟩ | h2 | h2
  · rw [h2]
    exact h (h1 ▸ hk)
  · exact h2
  · rw [h2] at hk
    exact absurd hk (by simp)

theorem sweepBoard_kingInv (mn : Nat) (c : Color) : ∀ (board : List Square) (st : SweepSt),
    (st.kingOnBoard.get c = true → st.kingProtectedUntil.get c = some mn) →
    ((sweepBoard mn st board).1.kingOnBoard.get c = true →
      (sweepBoard mn st board).1.kingProtectedUntil.get c = some mn) := by
  intro board
  induction board with
  | nil => intro st h; exact h
  | cons sq rest ih =>
    intro st h
    exact ih (transformSquare mn st sq).1 (transformSquare_kingInv mn st sq c h)

theorem applyAutoTransforms_kingInv (gs : GameState) (c : Color)
    (h : gs.kingOnBoard.get c = true → gs.kingProtectedUntil.get c = some gs.moveNumber) :
    (applyAutoTransforms gs).kingOnBoard.get c = true →
      (applyAutoTransforms gs).kingProtectedUntil.get c = some gs.moveNumber :=
  sweepBoard_kingInv gs.moveNumber c gs.board ⟨gs.stock, gs.kingOnBoard, gs.kingProtectedUntil⟩ h

theorem moveMid_moveNumber (gs : GameState) (f t : SquareId) (mover : Occupant)
    (sTo : Square) (mc : Color) :
    (moveMid gs f t mover sTo mc).moveNumber = gs.moveNumber + 1 := by
  unfold moveMid
  rw [applyAutoTransforms_moveNumber, expiryStep_moveNumber]
  dsimp only
  rw [promoFlagStep_moveNumber, inlineMetaTransform_moveNumber, inlinePieceTransform_moveNumber,
    safeReturnStep_moveNumber]
  dsimp only
  rw [moveOccStep_moveNumber, captureStep_moveNumber]

theorem moveMid_turn (gs : GameState) (f t : SquareId) (mover : Occupant)
    (sTo : Square) (mc : Color) :
    (moveMid gs f t mover sTo mc).turn = flipColor gs.turn := by
  unfold moveMid
  rw [applyAutoTransforms_turn, expiryStep_turn]
  dsimp only
  rw [promoFlagStep_turn, inlineMetaTransform_turn, inlinePieceTransform_turn,
    safeReturnStep_turn]
  dsimp only
  rw [moveOccStep_turn, captureStep_turn]

theorem moveMid_quietus (gs : GameState) (f t : SquareId) (mover : Occupant)
    (sTo : Square) (mc : Color) :
    (moveMid gs f t mover sTo mc).quietus = (captureStep gs sTo.occupant).1.quietus := by
  unfold moveMid
  rw [applyAutoTransforms_quietus, expiryStep_quietus]
  dsimp only
  rw [promoFlagStep_quietus, inlineMetaTransform_quietus, inlinePieceTransform_quietus,
    safeReturnStep_quietus]
  dsimp only
  rw [moveOccStep_quietus]

theorem moveMid_kingInv (gs : GameState) (f t : SquareId) (mover : Occupant)
    (sTo : Square) (mc c : Color)
    (hkob : gs.kingOnBoard.get c = false) :
    (moveMid gs f t mover sTo mc).kingOnBoard.get c = true →
      (moveMid gs f t mover sTo mc).kingProtectedUntil.get c = some (gs.moveNumber + 1) := by
  set s3 : GameState :=
    { moveOccStep (captureStep gs sTo.occupant).1 f t mover with lastMove := some (f, t, mc) }
    with hs3
  set s4 : GameState := safeReturnStep s3 t with hs4
  set s5 : GameState := inlinePieceTransform s4 t with hs5
  set s6 : GameState := inlineMetaTransform s5 t with hs6
  set s7 : GameState := promoFlagStep s6 t with hs7
  set s8 : GameState := { s7 with turn := flipColor s7.turn, moveNumber := s7.moveNumber + 1 }
    with hs8
  have e : moveMid gs f t mover sTo mc = applyAutoTransforms (expiryStep s8) := rfl
  rw [e]
  have h3mv : s3.moveNumber = gs.moveNumber := by
    rw [hs3]
    show (moveOccStep (captureStep gs sTo.occupant).1 f t mover).moveNumber = gs.moveNumber
    rw [moveOccStep_moveNumber, captureStep_moveNumber]
  have h3kob : s3.kingOnBoard.get c = false := by
    rw [hs3]
    show (moveOccStep (captureStep gs sTo.occupant).1 f t mover).kingOnBoard.get c = false
    rw [moveOccStep_kingOnBoard]
    by_cases hh : (captureStep gs sTo.occupant).1.kingOnBoard.get c = true
    · exact absurd (captureStep_kob_mono gs sTo.occupant c hh) (by rw [hkob]; simp)
    · simpa using hh
  have inv3 : s3.kingOnBoard.get c = true → s3.kingProtectedUntil.get c
      = some (gs.moveNumber + 1) := by
    intro hx
    rw [h3kob] at hx
    exact absurd hx (by simp)
  have h4mv : s4.moveNumber = gs.moveNumber := by
    rw [hs4, safeReturnStep_moveNumber, h3mv]
  have inv4 : s4.kingOnBoard.get c = true → s4.kingProtectedUntil.get c
      = some (gs.moveNumber + 1) := by
    intro hx
    rw [hs4, safeReturnStep_kingProtectedUntil]
    rw [hs4, safeReturnStep_kingOnBoard] at hx
    exact inv3 hx
  have h5mv : s5.moveNumber = gs.moveNumber := by
    rw [hs5, inlinePieceTransform_moveNumber, h4mv]
  have inv5 : s5.kingOnBoard.get c = true → s5.kingProtectedUntil.get c
      = some (gs.moveNumber + 1) := by
    intro hx
    rcases inlinePieceTransform_king_cases s4 t c with ⟨ha, hb⟩ | hb | hb
    · rw [hs5, hb]
      refine inv4 ?_
      rw [hs5, ha] at hx
      exact hx
    · rw [hs5, hb, h4mv]
    · rw [hs5, hb] at hx
      exact absurd hx (by simp)
  have h6mv : s6.moveNumber = gs.moveNumber := by
    rw [hs6, inlineMetaTransform_moveNumber, h5mv]
  have inv6 : s6.kingOnBoard.get c = true → s6.kingProtectedUntil.get c
      = some (gs.moveNumber + 1) := by
    intro hx
    rcases inlineMetaTransform_king_cases s5 t c with ⟨ha, hb⟩ | hb | hb
    · rw [hs6, hb]
      refine inv5 ?_
      rw [hs6, ha] at hx
      exact hx
    · rw [hs6, hb, h5mv]
    · rw [hs6, hb] at hx
      exact absurd hx (by simp)
  have h7mv : s7.moveNumber = gs.moveNumber := by
    rw [hs7, promoFlagStep_moveNumber, h6mv]
  have inv7 : s7.kingOnBoard.get c = true → s7.kingProtectedUntil.get c
      = some (gs.moveNumber + 1) := by
    intro hx
    rw [hs7, promoFlagStep_kingProtectedUntil]
    rw [hs7, promoFlagStep_kingOnBoard] at hx
    exact inv6 hx
  have h8mv : s8.moveNumber = gs.moveNumber + 1 := by
    rw [hs8]
    show s7.moveNumber + 1 = gs.moveNumber + 1
    rw [h7mv]
  have inv8 : s8.kingOnBoard.get c = true → s8.kingProtectedUntil.get c
      = some (gs.moveNumber + 1) := by
    intro hx
    exact inv7 hx
  have h9mv : (expiryStep s8).moveNumber = gs.moveNumber + 1 := by
    rw [expiryStep_moveNumber, h8mv]
  have inv9 : (expiryStep s8).kingOnBoard.get c = true →
      (expiryStep s8).kingProtectedUntil.get c = some (gs.moveNumber + 1) := by
    intro hx
    rw [expiryStep_kingProtectedUntil]
    refine inv8 ?_
    exact expiryKob_mono (flipColor s8.turn) s8.moveNumber c s8.board s8.kingOnBoard hx
  intro hx
  have := applyAutoTransforms_kingInv (expiryStep s8) c (by rw [h9mv]; exact inv9) hx
  rw [this, h9mv]

theorem kingGuardMsg_protected_some (gs : GameState) (mcol : Color) (pk : PieceData)
    (hk : pk.type = .K) (hprot : gs.kingProtectedUntil.get pk.color = some gs.moveNumber) :
    ∃ m, kingGuardMsg gs mcol (.piece pk) = some m := by
  unfold kingGuardMsg
  dsimp only
  rw [if_pos hk]
  by_cases hkob : gs.kingOnBoard.get mcol = true
  · rw [if_neg (by simp [hkob]), hprot]
    dsimp only
    rw [if_pos rfl]
    exact ⟨_, rfl⟩
  · rw [if_pos (by simpa using hkob)]
    exact ⟨_, rfl⟩

theorem kingGuardMsg_none_of (gs : GameState) (mcol : Color) (pk : PieceData)
    (hk : pk.type = .K) (hkob : gs.kingOnBoard.get mcol = true)
    (hprot : gs.kingProtectedUntil.get pk.color ≠ some gs.moveNumber) :
    kingGuardMsg gs mcol (.piece pk) = none := by
  unfold kingGuardMsg
  dsimp only
  rw [if_pos hk, if_neg (by simp [hkob])]
  rcases hp : gs.kingProtectedUntil.get pk.color with _ | prot
  · rfl
  · dsimp only
    rw [if_neg (fun e => hprot (by rw [hp, e]))]

theorem pmc_sameCore (gs : GameState) (f t : SquareId) (mover : Occupant) (mcol : Color)
    (legal : List (Int × Int)) (sT : Square)
    (hguard : ∃ m, kingGuardMsg gs mcol sT.occupant = some m) :
    sameCore (performMoveChecked gs f t mover mcol legal sT) gs := by
  unfold performMoveChecked
  by_cases hL : legal.any (hitsSquare sT) = true
  · rw [if_neg (by simp [hL])]
    rcases hguard with ⟨m, hm⟩
    rw [hm]
    exact ⟨rfl, rfl, rfl, rfl, rfl, rfl, rfl⟩
  · rw [if_pos (by simpa using hL)]
    exact ⟨rfl, rfl, rfl, rfl, rfl, rfl, rfl⟩

theorem pm_sameCore_protected (gs : GameState) (f t : SquareId) (sT : Square) (pk : PieceData)
    (hT : findId gs.board t = some sT) (hTo : sT.occupant = .piece pk) (hk : pk.type = .K)
    (hprot : gs.kingProtectedUntil.get pk.color = some gs.moveNumber) :
    sameCore (performMove gs f t) gs := by
  unfold performMove
  by_cases hw : gs.winner.isSome
  · rw [if_pos hw]
    exact ⟨rfl, rfl, rfl, rfl, rfl, rfl, rfl⟩
  · rw [if_neg hw]
    rcases hF : findId gs.board f with _ | sF <;> simp only [hF, hT]
    · exact ⟨rfl, rfl, rfl, rfl, rfl, rfl, rfl⟩
    rcases hso : sF.occupant with _ | mc | p <;> simp only [hso]
    · exact ⟨rfl, rfl, rfl, rfl, rfl, rfl, rfl⟩
    · by_cases hc : mc ≠ gs.turn
      · rw [if_pos hc]
        exact ⟨rfl, rfl, rfl, rfl, rfl, rfl, rfl⟩
      · rw [if_neg hc]
        refine pmc_sameCore gs f t _ mc _ sT ?_
        rw [hTo]
        exact kingGuardMsg_protected_some gs mc pk hk hprot
    · by_cases hc : p.color ≠ gs.turn
      · rw [if_pos hc]
        exact ⟨rfl, rfl, rfl, rfl, rfl, rfl, rfl⟩
      · rw [if_neg hc]
        refine pmc_sameCore gs f t _ p.color _ sT ?_
        rw [hTo]
        exact kingGuardMsg_protected_some gs p.color pk hk hprot

theorem captureStep_quietus_piece (next : GameState) (pk : PieceData) :
    ((captureStep next (.piece pk)).1.quietus.get pk.color).get pk.type
      = (next.quietus.get pk.color).get pk.type + 1 := by
  unfold captureStep
  dsimp only
  split_ifs <;> (dsimp only; rw [ByColor.get_set_same, ChrysalisStock.get_set_same_type])

/-- Claim C4, confirmed.  (1) While a color's king-protection window names
the current move number, any move that targets that king is rejected with
the core state unchanged.  (2) On an accepted move of a state where color
`c` had no king, a king of color `c` that appears during the move (by a
landing transform or the sweep) is protected until the resulting state's
current move number, so by (1) it cannot be captured there.  (3) When the
protection window names a different move number, an otherwise-legal capture
of that king goes through and records it in the quietus. -/
theorem claim_C4 (gs : GameState) (f t : SquareId) (c : Color) :
    (∀ sT pk, findId gs.board t = some sT → sT.occupant = .piece pk → pk.type = .K →
      pk.color = c → gs.kingProtectedUntil.get c = some gs.moveNumber →
      sameCore (performMove gs f t) gs)
    ∧ (∀ sF sT, gs.winner = none → findId gs.board f = some sF →
        findId gs.board t = some sT → occColor sF.occupant = some gs.turn →
        (legalFor gs sF).any (hitsSquare sT) = true →
        kingGuardMsg gs gs.turn sT.occupant = none →
        gs.kingOnBoard.get c = false →
        ((performMove gs f t).moveNumber = gs.moveNumber + 1
          ∧ ((performMove gs f t).kingOnBoard.get c = true →
            (performMove gs f t).kingProtectedUntil.get c
              = some ((performMove gs f t).moveNumber))))
    ∧ (∀ sF sT pk, gs.winner = none → findId gs.board f = some sF →
        findId gs.board t = some sT → occColor sF.occupant = some gs.turn →
        (legalFor gs sF).any (hitsSquare sT) = true →
        sT.occupant = .piece pk → pk.type = .K → pk.color = c →
        gs.kingOnBoard.get gs.turn = true →
        gs.kingProtectedUntil.get c ≠ some gs.moveNumber →
        ((performMove gs f t).quietus.get c).get .K = (gs.quietus.get c).get .K + 1) := by
  refine ⟨?_, ?_, ?_⟩
  · intro sT pk hT hTo hk hcol hprot
    exact pm_sameCore_protected gs f t sT pk hT hTo hk (by rw [hcol]; exact hprot)
  · intro sF sT hW hF hT hC hL hG hkob
    rw [pm_toChecked gs f t sF sT hW hF hT hC, pmc_accept _ _ _ _ _ _ _ hL hG]
    unfold performMoveAccept
    rw [winStep_moveNumber, winStep_kingOnBoard, winStep_kingProtectedUntil,
      moveMid_moveNumber]
    exact ⟨rfl, fun hx => by
      rw [moveMid_kingInv gs f t sF.occupant sT gs.turn c hkob hx]⟩
  · intro sF sT pk hW hF hT hC hL hTo hk hcol hkob hprot
    have hG : kingGuardMsg gs gs.turn sT.occupant = none := by
      rw [hTo]
      exact kingGuardMsg_none_of gs gs.turn pk hk hkob (by rw [hcol]; exact hprot)
    rw [pm_toChecked gs f t sF sT hW hF hT hC, pmc_accept _ _ _ _ _ _ _ hL hG]
    unfold performMoveAccept
    rw [winStep_quietus, moveMid_quietus, hTo]
    have := captureStep_quietus_piece gs pk
    rw [hcol, hk] at this
    exact this

/-- Witness for claim C4: the three conjuncts at concrete states - a
protected black king whose capture is rejected unchanged, a white king
created by a landing transform and protected at the resulting move number,
and an expired protection window letting the capture through. -/
theorem claim_C4_witness :
    sameCore (performMove c4State (0, 3) (0, 4)) c4State ∧
    ((performMove c4cState (4, 7) (4, 6)).moveNumber = c4cState.moveNumber + 1
      ∧ ((performMove c4cState (4, 7) (4, 6)).kingOnBoard.get .white = true →
        (performMove c4cState (4, 7) (4, 6)).kingProtectedUntil.get .white
          = some ((performMove c4cState (4, 7) (4, 6)).moveNumber))) ∧
    ((performMove c4bState (0, 3) (0, 4)).quietus.get .black).get .K
      = (c4bState.quietus.get .black).get .K + 1 :=
  ⟨(claim_C4 c4State (0, 3) (0, 4) .black).1
      ⟨0, 4, none, .piece ⟨.black, .K, 2, false, none⟩⟩ ⟨.black, .K, 2, false, none⟩
      (by decide) rfl rfl rfl rfl,
   (claim_C4 c4cState (4, 7) (4, 6) .white).2.1
      ⟨4, 7, none, .metamorph .white⟩ ⟨4, 6, some .K, .empty⟩
      rfl (by decide) (by decide) rfl (by decide) rfl rfl,
   (claim_C4 c4bState (0, 3) (0, 4) .black).2.2
      ⟨0, 3, none, .piece ⟨.white, .R, 2, false, none⟩⟩
      ⟨0, 4, none, .piece ⟨.black, .K, 2, false, none⟩⟩ ⟨.black, .K, 2, false, none⟩
      rfl (by decide) (by decide) rfl (by decide) rfl rfl rfl rfl (by decide)⟩

theorem flipColor_flip (c : Color) : flipColor (flipColor c) = c := by
  cases c <;> rfl

/-- Claim C6, amended.  If an accepted move does not capture a king and the
resulting state has the opponent king on board, attacked, with every king
destination attacked by the mover, then the result carries winner = mover
and winReason checkmate.  Amendment forced by the counterexample: when the
move captures a king the king-captured rule takes priority, even if the
transformation sweep immediately recreates an opponent king that satisfies
the checkmate conditions; the spec sentence without the no-king-capture
side condition is false. -/
theorem claim_C6 (gs : GameState) (f t : SquareId) (sF sT ksq : Square) (ko : PieceData)
    (hW : gs.winner = none) (hF : findId gs.board f = some sF)
    (hT : findId gs.board t = some sT) (hC : occColor sF.occupant = some gs.turn)
    (hL : (legalFor gs sF).any (hitsSquare sT) = true)
    (hG : kingGuardMsg gs gs.turn sT.occupant = none)
    (hNoCap : ∀ pk, sT.occupant = .piece pk → pk.type ≠ .K)
    (hkob : (performMove gs f t).kingOnBoard.get (flipColor gs.turn) = true)
    (hks : findKingSquare (performMove gs f t) (flipColor gs.turn) = some ksq)
    (hko : ksq.occupant = .piece ko)
    (hatk : isSquareAttacked (performMove gs f t) (ksq.file : Int) (ksq.rank : Int) gs.turn
      = true)
    (hsafe : (((legalMovesForPiece (performMove gs f t) ksq).filter
        (fun _ => ko.type == PieceType.K)).filter
        (fun m => !(isSquareAttacked (performMove gs f t) m.1 m.2 gs.turn))).isEmpty = true) :
    (performMove gs f t).winner = some gs.turn ∧
      (performMove gs f t).winReason = some "checkmate" := by
  have hacc : performMove gs f t = performMoveAccept gs f t sF.occupant sT gs.turn := by
    rw [pm_toChecked gs f t sF sT hW hF hT hC, pmc_accept _ _ _ _ _ _ _ hL hG]
  have hck : (captureStep gs sT.occupant).2 = none := by
    rcases hsTo : sT.occupant with _ | mcc | pk
    · rfl
    · rfl
    · unfold captureStep
      dsimp only
      rw [if_neg (hNoCap pk hsTo)]
  have hRT : performMove gs f t = winStep (moveMid gs f t sF.occupant sT gs.turn) none := by
    rw [hacc]
    unfold performMoveAccept
    rw [hck]
  set M := moveMid gs f t sF.occupant sT gs.turn with hMdef
  set cl : GameState := { M with selected := none, message := none } with hcl
  have hbd : (performMove gs f t).board = cl.board := by
    rw [hRT, winStep_board]
  have hMturn : M.turn = flipColor gs.turn := moveMid_turn gs f t sF.occupant sT gs.turn
  have hclturn : cl.turn = flipColor gs.turn := hMturn
  have hkobcl : cl.kingOnBoard.get (flipColor gs.turn) = true := by
    have hx : (performMove gs f t).kingOnBoard = cl.kingOnBoard := by
      rw [hRT, winStep_kingOnBoard]
    rw [← hx]
    exact hkob
  have hkscl : findKingSquare cl (flipColor gs.turn) = some ksq := by
    rw [← findKingSquare_congr (performMove gs f t) cl hbd]
    exact hks
  have hatkcl : ∀ (f1 r1 : Int), isSquareAttacked cl f1 r1 gs.turn
      = isSquareAttacked (performMove gs f t) f1 r1 gs.turn := fun f1 r1 =>
    (isSquareAttacked_congr (performMove gs f t) cl hbd f1 r1 gs.turn).symm
  have hlmcl : legalMovesForPiece cl ksq = legalMovesForPiece (performMove gs f t) ksq :=
    (legalMovesForPiece_congr _ _ hbd ksq).symm
  have hfun : (fun m : Int × Int => !(isSquareAttacked cl m.1 m.2 gs.turn))
      = (fun m : Int × Int => !(isSquareAttacked (performMove gs f t) m.1 m.2 gs.turn)) :=
    funext fun m => by rw [hatkcl]
  have hcm : checkmateResult cl gs.turn = some (gs.turn, "checkmate") := by
    unfold checkmateResult
    dsimp only
    rw [hclturn, if_pos hkobcl, hkscl]
    dsimp only
    rw [hatkcl, if_pos hatk, hko]
    dsimp only
    rw [hlmcl, hfun, if_pos hsafe]
  have hlast : flipColor cl.turn = gs.turn := by
    rw [hclturn, flipColor_flip]
  have hdw : detectWin cl (flipColor cl.turn) none = some (gs.turn, "checkmate") := by
    unfold detectWin
    rw [hlast, hcm]
  rw [hRT]
  unfold winStep
  rw [← hcl]
  dsimp only
  rw [hdw]
  exact ⟨rfl, rfl⟩

/-- Counterexample to the unamended C6: white's rook capture of the black
king triggers the sweep, which immediately recreates a black king on h6
that satisfies every checkmate condition (on board, attacked, no safe king
destination), yet the result reads winner white with reason "king
captured", not "checkmate": the king-captured rule takes priority. -/
theorem claim_C6_cex :
    (performMove c6State (0, 3) (0, 4)).kingOnBoard.get Color.black = true
    ∧ findKingSquare (performMove c6State (0, 3) (0, 4)) Color.black
        = some ⟨7, 6, some PieceType.K, .piece ⟨.black, .K, 6, false, none⟩⟩
    ∧ isSquareAttacked (performMove c6State (0, 3) (0, 4)) 7 6 Color.white = true
    ∧ (((legalMovesForPiece (performMove c6State (0, 3) (0, 4))
          ⟨7, 6, some PieceType.K, .piece ⟨.black, .K, 6, false, none⟩⟩).filter
        (fun _ => PieceType.K == PieceType.K)).filter
        (fun m => !(isSquareAttacked (performMove c6State (0, 3) (0, 4))
          m.1 m.2 Color.white))).isEmpty = true
    ∧ (performMove c6State (0, 3) (0, 4)).winner = some Color.white
    ∧ (performMove c6State (0, 3) (0, 4)).winReason = some "king captured"
    ∧ (performMove c6State (0, 3) (0, 4)).winReason ≠ some "checkmate" := by
  refine ⟨by decide, by decide, by decide, by decide, by decide, by decide, by decide⟩

/-- Witness for C6: the rook slide h4-f4 delivers a clean checkmate on the
a-file king and the theorem's conditions hold concretely. -/
theorem claim_C6_witness :
    (performMove c6WitState (7, 4) (5, 4)).winner = some Color.white ∧
      (performMove c6WitState (7, 4) (5, 4)).winReason = some "checkmate" :=
  claim_C6 c6WitState (7, 4) (5, 4)
    ⟨7, 4, none, .piece ⟨.white, .R, 1, false, none⟩⟩
    ⟨5, 4, none, .empty⟩
    ⟨0, 4, none, .piece ⟨.black, .K, 1, false, none⟩⟩
    ⟨.black, .K, 1, false, none⟩
    (by decide) (by decide) (by decide) (by decide) (by decide) (by decide)
    (fun pk hpk => nomatch hpk)
    (by decide) (by decide) (by decide) (by decide) (by decide)

theorem findId_cons (s : Square) (rest : List Square) (q : SquareId) :
    findId (s :: rest) q
      = if (s.file == q.1) && (s.rank == q.2) then some s else findId rest q := by
  unfold findId
  by_cases hb : ((s.file == q.1) && (s.rank == q.2)) = true
  · rw [if_pos hb]
    simp only [List.find?, hb]
  · rw [if_neg hb]
    rw [Bool.not_eq_true] at hb
    simp only [List.find?, hb]

theorem findId_setOccAt_ne (id q : SquareId) (o : Occupant) (h : q ≠ id) :
    ∀ (board : List Square), findId (setOccAt board id o) q = findId board q := by
  intro board
  induction board with
  | nil => rfl
  | cons s rest ih =>
    unfold setOccAt updateFirst
    by_cases hm : matchesId id s = true
    · rw [if_pos hm]
      have hq : ¬ (((s.file == q.1) && (s.rank == q.2)) = true) := by
        intro ht
        apply h
        simp only [matchesId, Bool.and_eq_true, beq_iff_eq] at hm ht
        cases q
        cases id
        simp only [Prod.mk.injEq]
        exact ⟨ht.1.symm.trans hm.1, ht.2.symm.trans hm.2⟩
      rw [findId_cons, findId_cons, if_neg hq, if_neg hq]
    · rw [if_neg hm, findId_cons, findId_cons]
      by_cases hq : ((s.file == q.1) && (s.rank == q.2)) = true
      · rw [if_pos hq, if_pos hq]
      · rw [if_neg hq, if_neg hq]
        exact ih

theorem findId_map_pres (g : Square → Square)
    (hg : ∀ s, (g s).file = s.file ∧ (g s).rank = s.rank) :
    ∀ (board : List Square) (q : SquareId),
      findId (board.map g) q = (findId board q).map g := by
  intro board
  induction board with
  | nil => intro q; rfl
  | cons s rest ih =>
    intro q
    rw [List.map_cons, findId_cons, findId_cons]
    have hc : ((((g s).file == q.1) && ((g s).rank == q.2)) : Bool)
        = ((s.file == q.1) && (s.rank == q.2)) := by
      rw [(hg s).1, (hg s).2]
    rw [hc]
    by_cases hb : ((s.file == q.1) && (s.rank == q.2)) = true
    · rw [if_pos hb, if_pos hb]
      rfl
    · rw [if_neg hb, if_neg hb]
      exact ih q

theorem expireOcc_pres (jm : Color) (mn : Nat) (sq : Square) :
    (expireOcc jm mn sq).file = sq.file ∧ (expireOcc jm mn sq).rank = sq.rank
      ∧ (expireOcc jm mn sq).blueSymbol = sq.blueSymbol := by
  unfold expireOcc
  split
  · split
    · split
      · split
        · exact ⟨rfl, rfl, rfl⟩
        · exact ⟨rfl, rfl, rfl⟩
      · exact ⟨rfl, rfl, rfl⟩
    · exact ⟨rfl, rfl, rfl⟩
  · exact ⟨rfl, rfl, rfl⟩

theorem transformSquare_snd_pres (mn : Nat) (st : SweepSt) (sq : Square) :
    ((transformSquare mn st sq).2).file = sq.file
      ∧ ((transformSquare mn st sq).2).rank = sq.rank := by
  unfold transformSquare
  split
  · exact ⟨rfl, rfl⟩
  · split
    · exact ⟨rfl, rfl⟩
    · split
      · exact ⟨rfl, rfl⟩
      · split
        · exact ⟨rfl, rfl⟩
        · exact ⟨rfl, rfl⟩
      · split
        · exact ⟨rfl, rfl⟩
        · exact ⟨rfl, rfl⟩

theorem transformSquare_skip (mn : Nat) (st : SweepSt) (sq : Square)
    (h : sq.blueSymbol = none) : transformSquare mn st sq = (st, sq) := by
  unfold transformSquare
  by_cases hz : ¬ inZone sq.rank
  · rw [if_pos hz]
  · rw [if_neg hz, h]

theorem sweepBoard_findId_skip (mn : Nat) :
    ∀ (board : List Square) (st : SweepSt) (q : SquareId) (sq : Square),
      findId board q = some sq → sq.blueSymbol = none →
      findId (sweepBoard mn st board).2 q = some sq := by
  intro board
  induction board with
  | nil =>
    intro st q sq h _
    exact absurd h (by simp [findId, List.find?])
  | cons s rest ih =>
    intro st q sq h hbs
    rw [findId_cons] at h
    unfold sweepBoard
    dsimp only
    rw [findId_cons]
    have hpres := transformSquare_snd_pres mn st s
    have hc : (((((transformSquare mn st s).2).file == q.1)
        && (((transformSquare mn st s).2).rank == q.2)) : Bool)
        = ((s.file == q.1) && (s.rank == q.2)) := by
      rw [hpres.1, hpres.2]
    rw [hc]
    by_cases hb : ((s.file == q.1) && (s.rank == q.2)) = true
    · rw [if_pos hb] at h ⊢
      injection h with h
      subst h
      rw [transformSquare_skip mn st s hbs]
    · rw [if_neg hb] at h ⊢
      exact ih _ q sq h hbs

theorem applyAutoTransforms_findId_skip (gs : GameState) (q : SquareId) (sq : Square)
    (h : findId gs.board q = some sq) (hbs : sq.blueSymbol = none) :
    findId (applyAutoTransforms gs).board q = some sq := by
  unfold applyAutoTransforms
  dsimp only
  exact sweepBoard_findId_skip gs.moveNumber gs.board ⟨gs.stock, gs.kingOnBoard, gs.kingProtectedUntil⟩ q sq h hbs

theorem moveOccStep_findId_ne (next : GameState) (f t q : SquareId) (mover : Occupant)
    (hqf : q ≠ f) (hqt : q ≠ t) :
    findId (moveOccStep next f t mover).board q = findId next.board q := by
  unfold moveOccStep
  dsimp only
  rw [findId_setOccAt_ne f q _ hqf, findId_setOccAt_ne t q _ hqt]

theorem safeReturnStep_findId_ne (next : GameState) (t q : SquareId) (hqt : q ≠ t) :
    findId (safeReturnStep next t).board q = findId next.board q := by
  unfold safeReturnStep
  split <;> try rfl
  split <;> try rfl
  split <;> try rfl
  dsimp only
  rw [findId_setOccAt_ne t q _ hqt]

theorem inlinePieceTransform_findId_ne (next : GameState) (t q : SquareId) (hqt : q ≠ t) :
    findId (inlinePieceTransform next t).board q = findId next.board q := by
  unfold inlinePieceTransform
  split <;> try rfl
  split <;> try rfl
  split <;> try rfl
  dsimp only
  split <;> split <;> (dsimp only; rw [findId_setOccAt_ne t q _ hqt])

theorem inlineMetaTransform_findId_ne (next : GameState) (t q : SquareId) (hqt : q ≠ t) :
    findId (inlineMetaTransform next t).board q = findId next.board q := by
  unfold inlineMetaTransform
  split <;> try rfl
  split <;> try rfl
  split <;> try rfl
  dsimp only
  split <;> (dsimp only; rw [findId_setOccAt_ne t q _ hqt])

theorem moveMid_findId_bystander (gs : GameState) (f t q : SquareId) (mover : Occupant)
    (sTo : Square) (mc : Color) (sq : Square)
    (hqf : q ≠ f) (hqt : q ≠ t)
    (hq : findId gs.board q = some sq) (hbs : sq.blueSymbol = none) :
    findId (moveMid gs f t mover sTo mc).board q
      = some (expireOcc gs.turn (gs.moveNumber + 1) sq) := by
  unfold moveMid
  dsimp only
  refine applyAutoTransforms_findId_skip _ q _ ?_ ?_
  · unfold expiryStep
    dsimp only
    rw [findId_map_pres _ (fun s => ⟨(expireOcc_pres _ _ s).1, (expireOcc_pres _ _ s).2.1⟩)]
    rw [promoFlagStep_board, inlineMetaTransform_findId_ne _ _ _ hqt,
      inlinePieceTransform_findId_ne _ _ _ hqt, safeReturnStep_findId_ne _ _ _ hqt]
    dsimp only
    rw [moveOccStep_findId_ne _ f t q mover hqf hqt, captureStep_board, hq]
    rw [promoFlagStep_turn, inlineMetaTransform_turn, inlinePieceTransform_turn,
      safeReturnStep_turn]
    dsimp only
    rw [moveOccStep_turn, captureStep_turn, flipColor_flip]
    rw [promoFlagStep_moveNumber, inlineMetaTransform_moveNumber,
      inlinePieceTransform_moveNumber, safeReturnStep_moveNumber]
    dsimp only
    rw [moveOccStep_moveNumber, captureStep_moveNumber]
    rfl
  · rw [(expireOcc_pres _ _ _).2.2]
    exact hbs

/-- Claim C5, amended.  For a bystander loan occupant (a square distinct
from both endpoints of an accepted move, with no blue symbol) with
`mustReturn` and `returnByMove = N`: after the move the occupant is
destroyed exactly when its owner is the mover and the advanced move number
has reached `N` and the square lies outside ranks 3..6 (the advanced move
number is `moveNumber + 1`, so with the standard promotion deadline
`N = creation move + 1` the destruction lands on the transition to `N + 1`,
one move later than the spec's "transition that advances moveNumber to N");
inside the zone only the loan flags are cleared; in every other case the
occupant is untouched. -/
theorem claim_C5 (gs : GameState) (f t q : SquareId) (sF sT sq : Square)
    (p : PieceData) (N : Nat)
    (hW : gs.winner = none) (hF : findId gs.board f = some sF)
    (hT : findId gs.board t = some sT) (hC : occColor sF.occupant = some gs.turn)
    (hL : (legalFor gs sF).any (hitsSquare sT) = true)
    (hG : kingGuardMsg gs gs.turn sT.occupant = none)
    (hqf : q ≠ f) (hqt : q ≠ t)
    (hq : findId gs.board q = some sq) (hbs : sq.blueSymbol = none)
    (hp : sq.occupant = .piece p) (hmr : p.mustReturn = true)
    (hrb : p.returnByTurn = some N) :
    (p.color = gs.turn ∧ N ≤ gs.moveNumber + 1 ∧ ¬ inZone sq.rank →
        occupantAt (performMove gs f t) q = some .empty)
      ∧ (p.color = gs.turn ∧ N ≤ gs.moveNumber + 1 ∧ inZone sq.rank →
        occupantAt (performMove gs f t) q
          = some (.piece { p with mustReturn := false, returnByTurn := none }))
      ∧ (¬ (p.color = gs.turn ∧ N ≤ gs.moveNumber + 1) →
        occupantAt (performMove gs f t) q = some (.piece p)) := by
  have hacc : performMove gs f t = performMoveAccept gs f t sF.occupant sT gs.turn := by
    rw [pm_toChecked gs f t sF sT hW hF hT hC, pmc_accept _ _ _ _ _ _ _ hL hG]
  have hboard : (performMove gs f t).board = (moveMid gs f t sF.occupant sT gs.turn).board := by
    rw [hacc]
    unfold performMoveAccept
    rw [winStep_board]
  have hocc : occupantAt (performMove gs f t) q
      = some (expireOcc gs.turn (gs.moveNumber + 1) sq).occupant := by
    unfold occupantAt
    rw [hboard,
      moveMid_findId_bystander gs f t q sF.occupant sT gs.turn sq hqf hqt hq hbs]
    rfl
  refine ⟨?_, ?_, ?_⟩
  · intro hc
    have he : expireOcc gs.turn (gs.moveNumber + 1) sq = { sq with occupant := .empty } := by
      unfold expireOcc
      rw [hp]
      dsimp only
      rw [hrb]
      dsimp only
      rw [if_pos ⟨hmr, hc.1, hc.2.1⟩, if_pos hc.2.2]
    rw [hocc, he]
  · intro hc
    have he : expireOcc gs.turn (gs.moveNumber + 1) sq
        = { sq with occupant := .piece { p with mustReturn := false, returnByTurn := none } } := by
      unfold expireOcc
      rw [hp]
      dsimp only
      rw [hrb]
      dsimp only
      rw [if_pos ⟨hmr, hc.1, hc.2.1⟩, if_neg (not_not_intro hc.2.2)]
    rw [hocc, he]
  · intro hc
    have he : expireOcc gs.turn (gs.moveNumber + 1) sq = sq := by
      unfold expireOcc
      rw [hp]
      dsimp only
      rw [hrb]
      dsimp only
      rw [if_neg (fun hX => hc ⟨hX.2.1, hX.2.2⟩)]
    rw [hocc, he, hp]

/-- Counterexample to the unamended C5: the white loan queen on b1
(`returnByMove` 12, outside ranks 3..6) survives the black move that
advances the move number to 12, and is destroyed only by the following
white move, on the transition that advances the move number to 13. -/
theorem claim_C5_cex :
    (performMove c5State (4, 2) (4, 3)).moveNumber = 12
    ∧ occupantAt (performMove c5State (4, 2) (4, 3)) (0, 1)
        = some (.piece ⟨.white, .Q, 10, true, some 12⟩)
    ∧ (performMove (performMove c5State (4, 2) (4, 3)) (0, 1) (0, 2)).moveNumber = 13
    ∧ occupantAt (performMove (performMove c5State (4, 2) (4, 3)) (0, 1) (0, 2)) (0, 2)
        = some .empty := by
  refine ⟨by decide, by decide, by decide, by decide⟩

/-- Witness for C5: a white move while the white loan queen on b1 has
reached its deadline outside the zone destroys the bystander loan. -/
theorem claim_C5_witness :
    (⟨.white, .Q, 10, true, (some 12 : Option Nat)⟩ : PieceData).color = c5WitState.turn
      ∧ 12 ≤ c5WitState.moveNumber + 1
      ∧ ¬ inZone (1 : Nat)
      ∧ occupantAt (performMove c5WitState (4, 7) (4, 6)) (0, 1) = some .empty :=
  ⟨by decide, by decide, by decide,
    (claim_C5 c5WitState (4, 7) (4, 6) (0, 1)
      ⟨4, 7, none, .metamorph .white⟩ ⟨4, 6, none, .empty⟩
      ⟨0, 1, none, .piece ⟨.white, .Q, 10, true, some 12⟩⟩
      ⟨.white, .Q, 10, true, some 12⟩ 12
      (by decide) (by decide) (by decide) (by decide) (by decide) (by decide)
      (by decide) (by decide) (by decide) (by decide) (by decide) (by decide)
      (by decide)).1 ⟨by decide, by decide, by decide⟩⟩

theorem cnt_setOccAt (id : SquareId) (o : Occupant) (c : Color) (t : PieceType) :
    ∀ (board : List Square) (sq : Square), findId board id = some sq →
      nonLoanCount (setOccAt board id o) c t
          + (if isNonLoanPiece c t sq.occupant = true then 1 else 0)
        = nonLoanCount board c t + (if isNonLoanPiece c t o = true then 1 else 0) := by
  intro board
  induction board with
  | nil =>
    intro sq h
    exact absurd h (by simp [findId, List.find?])
  | cons s rest ih =>
    intro sq h
    rw [findId_cons] at h
    by_cases hm : ((s.file == id.1) && (s.rank == id.2)) = true
    · rw [if_pos hm] at h
      injection h with h
      rw [← h]
      have hset : setOccAt (s :: rest) id o = { s with occupant := o } :: rest := by
        unfold setOccAt
        rw [updateFirst]
        rw [if_pos (show matchesId id s = true from hm)]
      rw [hset]
      unfold nonLoanCount
      rw [List.countP_cons, List.countP_cons]
      dsimp only
      split_ifs <;> omega
    · rw [if_neg hm] at h
      have hset : setOccAt (s :: rest) id o = s :: setOccAt rest id o := by
        unfold setOccAt
        rw [updateFirst]
        rw [if_neg (show ¬ matchesId id s = true from hm)]
      rw [hset]
      unfold nonLoanCount
      rw [List.countP_cons, List.countP_cons]
      have hih := ih sq h
      unfold nonLoanCount at hih
      split_ifs at hih ⊢ <;> omega

theorem findId_setOccAt_self (id : SquareId) (o : Occupant) :
    ∀ (board : List Square) (sq : Square), findId board id = some sq →
      findId (setOccAt board id o) id = some { sq with occupant := o } := by
  intro board
  induction board with
  | nil =>
    intro sq h
    exact absurd h (by simp [findId, List.find?])
  | cons s rest ih =>
    intro sq h
    rw [findId_cons] at h
    by_cases hm : ((s.file == id.1) && (s.rank == id.2)) = true
    · rw [if_pos hm] at h
      injection h with h
      rw [← h]
      have hset : setOccAt (s :: rest) id o = { s with occupant := o } :: rest := by
        unfold setOccAt
        rw [updateFirst]
        rw [if_pos (show matchesId id s = true from hm)]
      rw [hset, findId_cons]
      dsimp only
      rw [if_pos hm]
    · rw [if_neg hm] at h
      have hset : setOccAt (s :: rest) id o = s :: setOccAt rest id o := by
        unfold setOccAt
        rw [updateFirst]
        rw [if_neg (show ¬ matchesId id s = true from hm)]
      rw [hset, findId_cons, if_neg hm]
      exact ih sq h

theorem mem_of_findId (board : List Square) (id : SquareId) (sq : Square)
    (h : findId board id = some sq) : sq ∈ board :=
  List.mem_of_find?_eq_some h

theorem noLoans_setOccAt (id : SquareId) (o : Occupant) (ho : occMustReturn o = false) :
    ∀ (board : List Square), noLoans board → noLoans (setOccAt board id o) := by
  intro board
  induction board with
  | nil =>
    intro h
    exact h
  | cons s rest ih =>
    intro h
    unfold setOccAt updateFirst
    by_cases hm : matchesId id s = true
    · rw [if_pos hm]
      intro x hx
      rcases List.mem_cons.mp hx with hx | hx
      · rw [hx]
        exact ho
      · exact h x (List.mem_cons_of_mem _ hx)
    · rw [if_neg hm]
      intro x hx
      rcases List.mem_cons.mp hx with hx | hx
      · rw [hx]
        exact h s (List.mem_cons_self _ _)
      · exact ih (fun y hy => h y (List.mem_cons_of_mem _ hy)) x hx

theorem stockTake_conserved (stock : ByColor ChrysalisStock) (c0 : Color) (needed : PieceType)
    (hpos : 0 < (stock.get c0).get needed) (c : Color) (t : PieceType) :
    ((stock.set c0 ((stock.get c0).set needed ((stock.get c0).get needed - 1))).get c).get t
        + (if c = c0 ∧ t = needed then 1 else 0)
      = (stock.get c).get t := by
  by_cases hc : c = c0
  · subst hc
    rw [ByColor.get_set_same]
    by_cases ht : t = needed
    · subst ht
      rw [ChrysalisStock.get_set_same_type, if_pos ⟨rfl, rfl⟩]
      omega
    · rw [ChrysalisStock.get_set_ne_type _ _ _ _ ht, if_neg (fun hx => ht hx.2)]
      omega
  · rw [ByColor.get_set_ne _ _ _ _ hc, if_neg (fun hx => hc hx.1)]
    omega

theorem stockSwap_conserved (stock : ByColor ChrysalisStock) (p : PieceData)
    (needed : PieceType) (hne : p.type ≠ needed)
    (hpos : 0 < (stock.get p.color).get needed)
    (hcap : (stock.get p.color).get p.type + 1 ≤ INITIAL_COUNTS.get p.type)
    (c : Color) (t : PieceType) :
    (((stock.set p.color
        (((stock.get p.color).set p.type
            (min (INITIAL_COUNTS.get p.type) ((stock.get p.color).get p.type + 1))).set needed
          (((stock.get p.color).set p.type
            (min (INITIAL_COUNTS.get p.type) ((stock.get p.color).get p.type + 1))).get needed
              - 1))).get c).get t)
        + (if c = p.color ∧ t = needed then 1 else 0)
      = (stock.get c).get t + (if c = p.color ∧ t = p.type then 1 else 0) := by
  have hmin : min (INITIAL_COUNTS.get p.type) ((stock.get p.color).get p.type + 1)
      = (stock.get p.color).get p.type + 1 := by omega
  by_cases hc : c = p.color
  · subst hc
    rw [ByColor.get_set_same]
    by_cases ht : t = needed
    · subst ht
      rw [ChrysalisStock.get_set_same_type, if_pos ⟨rfl, rfl⟩,
        ChrysalisStock.get_set_ne_type _ _ _ _ (fun hx => hne hx.symm),
        if_neg (fun hx => hne hx.2.symm)]
      omega
    · rw [ChrysalisStock.get_set_ne_type _ _ _ _ ht, if_neg (fun hx => ht hx.2)]
      by_cases ht2 : t = p.type
      · subst ht2
        rw [ChrysalisStock.get_set_same_type, if_pos ⟨rfl, rfl⟩, hmin]
      · rw [ChrysalisStock.get_set_ne_type _ _ _ _ ht2, if_neg (fun hx => ht2 hx.2)]
  · rw [ByColor.get_set_ne _ _ _ _ hc, if_neg (fun hx => hc hx.1),
      if_neg (fun hx => hc hx.1)]

theorem stockSwap_le (stock : ByColor ChrysalisStock) (p : PieceData) (needed : PieceType)
    (hle : ∀ c t, (stock.get c).get t ≤ INITIAL_COUNTS.get t) (c : Color) (t : PieceType) :
    (((stock.set p.color
        (((stock.get p.color).set p.type
            (min (INITIAL_COUNTS.get p.type) ((stock.get p.color).get p.type + 1))).set needed
          (((stock.get p.color).set p.type
            (min (INITIAL_COUNTS.get p.type) ((stock.get p.color).get p.type + 1))).get needed
              - 1))).get c).get t) ≤ INITIAL_COUNTS.get t := by
  by_cases hc : c = p.color
  · subst hc
    rw [ByColor.get_set_same]
    by_cases ht : t = needed
    · subst ht
      by_cases ht2 : t = p.type
      · subst ht2
        rw [ChrysalisStock.get_set_same_type, ChrysalisStock.get_set_same_type]
        omega
      · rw [ChrysalisStock.get_set_same_type,
          ChrysalisStock.get_set_ne_type _ _ _ _ ht2]
        have := hle p.color t
        omega
    · rw [ChrysalisStock.get_set_ne_type _ _ _ _ ht]
      by_cases ht2 : t = p.type
      · subst ht2
        rw [ChrysalisStock.get_set_same_type]
        omega
      · rw [ChrysalisStock.get_set_ne_type _ _ _ _ ht2]
        exact hle p.color t
  · rw [ByColor.get_set_ne _ _ _ _ hc]
    exact hle c t

theorem stockTake_le (stock : ByColor ChrysalisStock) (c0 : Color) (needed : PieceType)
    (hle : ∀ c t, (stock.get c).get t ≤ INITIAL_COUNTS.get t) (c : Color) (t : PieceType) :
    ((stock.set c0 ((stock.get c0).set needed ((stock.get c0).get needed - 1))).get c).get t
      ≤ INITIAL_COUNTS.get t := by
  by_cases hc : c = c0
  · subst hc
    rw [ByColor.get_set_same]
    by_cases ht : t = needed
    · subst ht
      rw [ChrysalisStock.get_set_same_type]
      have := hle c t
      omega
    · rw [ChrysalisStock.get_set_ne_type _ _ _ _ ht]
      exact hle c t
  · rw [ByColor.get_set_ne _ _ _ _ hc]
    exact hle c t

theorem occCnt_empty (c : Color) (t : PieceType) :
    (if isNonLoanPiece c t .empty = true then 1 else 0) = 0 := rfl

theorem occCnt_metamorph (c : Color) (t : PieceType) (c1 : Color) :
    (if isNonLoanPiece c t (.metamorph c1) = true then 1 else 0) = 0 := rfl

theorem occCnt_nonloanPiece (c : Color) (t : PieceType) (p : PieceData)
    (hmr : p.mustReturn = false) :
    (if isNonLoanPiece c t (.piece p) = true then 1 else 0)
      = (if c = p.color ∧ t = p.type then 1 else 0) := by
  by_cases hc : c = p.color ∧ t = p.type
  · have hA : isNonLoanPiece c t (.piece p) = true := by
      simp only [isNonLoanPiece, Bool.and_eq_true, beq_iff_eq, hmr, Bool.not_false]
      exact ⟨⟨hc.1.symm, hc.2.symm⟩, trivial⟩
    rw [if_pos hA, if_pos hc]
  · have hA : ¬ isNonLoanPiece c t (.piece p) = true := by
      intro hT
      apply hc
      simp only [isNonLoanPiece, Bool.and_eq_true, beq_iff_eq, hmr, Bool.not_false] at hT
      exact ⟨hT.1.1.symm, hT.1.2.symm⟩
    rw [if_neg hA, if_neg hc]

theorem transformSquare_noLoan (mn : Nat) (st : SweepSt) (sq : Square)
    (hnl : occMustReturn sq.occupant = false) :
    occMustReturn ((transformSquare mn st sq).2).occupant = false := by
  unfold transformSquare
  by_cases hz : ¬ inZone sq.rank
  · rw [if_pos hz]
    exact hnl
  · rw [if_neg hz]
    split
    · exact hnl
    · split
      · exact hnl
      · rename_i needed hbs x mc hocc
        split
        · dsimp only
          rfl
        · exact hnl
      · rename_i needed hbs x p hocc
        split
        · dsimp only
          rfl
        · exact hnl

theorem transformSquare_conserved (mn : Nat) (st : SweepSt) (sq : Square)
    (hnl : occMustReturn sq.occupant = false)
    (hcap : ∀ c t, (st.stock.get c).get t
        + (if isNonLoanPiece c t sq.occupant = true then 1 else 0) ≤ INITIAL_COUNTS.get t)
    (c : Color) (t : PieceType) :
    (((transformSquare mn st sq).1.stock.get c).get t)
        + (if isNonLoanPiece c t ((transformSquare mn st sq).2).occupant = true then 1 else 0)
      = (st.stock.get c).get t
        + (if isNonLoanPiece c t sq.occupant = true then 1 else 0) := by
  unfold transformSquare
  by_cases hz : ¬ inZone sq.rank
  · rw [if_pos hz]
  · rw [if_neg hz]
    split
    · rfl
    · split
      · rfl
      · rename_i needed hbs x mc hocc
        split
        · rename_i hs
          dsimp only
          have h1 := stockTake_conserved st.stock mc needed hs c t
          have h2 : (if isNonLoanPiece c t
              (.piece ⟨mc, needed, mn, false, none⟩) = true then 1 else 0)
              = (if c = mc ∧ t = needed then 1 else 0) := by
            rw [occCnt_nonloanPiece c t ⟨mc, needed, mn, false, none⟩ rfl]
          rw [hocc, occCnt_metamorph]
          by_cases hK : needed = .K
          · rw [if_pos hK]
            dsimp only
            rw [h2]
            omega
          · rw [if_neg hK]
            dsimp only
            rw [h2]
            omega
        · rfl
      · rename_i needed hbs x p hocc
        split
        · rename_i hcond
          dsimp only
          have hmr : p.mustReturn = false := by
            rw [hocc] at hnl
            exact hnl
          have hcp : (st.stock.get p.color).get p.type + 1 ≤ INITIAL_COUNTS.get p.type := by
            have hcc := hcap p.color p.type
            rw [hocc, occCnt_nonloanPiece _ _ p hmr, if_pos ⟨rfl, rfl⟩] at hcc
            omega
          have h1 := stockSwap_conserved st.stock p needed hcond.1 hcond.2 hcp c t
          have h2 : (if isNonLoanPiece c t
              (.piece ⟨p.color, needed, mn, false, none⟩) = true then 1 else 0)
              = (if c = p.color ∧ t = needed then 1 else 0) := by
            rw [occCnt_nonloanPiece c t ⟨p.color, needed, mn, false, none⟩ rfl]
          rw [hocc, occCnt_nonloanPiece _ _ p hmr]
          by_cases hK : needed = .K
          · rw [if_pos hK]
            dsimp only
            by_cases hvac : p.type = .K ∧ needed ≠ .K
            · rw [if_pos hvac]
              dsimp only
              rw [h2]
              omega
            · rw [if_neg hvac]
              dsimp only
              rw [h2]
              omega
          · rw [if_neg hK]
            by_cases hvac : p.type = .K ∧ needed ≠ .K
            · rw [if_pos hvac]
              dsimp only
              rw [h2]
              omega
            · rw [if_neg hvac]
              dsimp only
              rw [h2]
              omega
        · rfl

theorem transformSquare_stockLe (mn : Nat) (st : SweepSt) (sq : Square)
    (hle : ∀ c t, (st.stock.get c).get t ≤ INITIAL_COUNTS.get t)
    (c : Color) (t : PieceType) :
    ((transformSquare mn st sq).1.stock.get c).get t ≤ INITIAL_COUNTS.get t := by
  unfold transformSquare
  by_cases hz : ¬ inZone sq.rank
  · rw [if_pos hz]
    exact hle c t
  · rw [if_neg hz]
    split
    · exact hle c t
    · split
      · exact hle c t
      · rename_i needed hbs x mc hocc
        split
        · rename_i hs
          dsimp only
          by_cases hK : needed = .K
          · rw [if_pos hK]
            dsimp only
            exact stockTake_le st.stock mc needed hle c t
          · rw [if_neg hK]
            dsimp only
            exact stockTake_le st.stock mc needed hle c t
        · exact hle c t
      · rename_i needed hbs x p hocc
        split
        · rename_i hcond
          dsimp only
          by_cases hK : needed = .K
          · rw [if_pos hK]
            dsimp only
            by_cases hvac : p.type = .K ∧ needed ≠ .K
            · rw [if_pos hvac]
              dsimp only
              exact stockSwap_le st.stock p needed hle c t
            · rw [if_neg hvac]
              dsimp only
              exact stockSwap_le st.stock p needed hle c t
          · rw [if_neg hK]
            by_cases hvac : p.type = .K ∧ needed ≠ .K
            · rw [if_pos hvac]
              dsimp only
              exact stockSwap_le st.stock p needed hle c t
            · rw [if_neg hvac]
              dsimp only
              exact stockSwap_le st.stock p needed hle c t
        · exact hle c t

theorem sweepBoard_noLoans (mn : Nat) :
    ∀ (board : List Square) (st : SweepSt),
      (∀ x ∈ board, occMustReturn x.occupant = false) →
      ∀ x ∈ (sweepBoard mn st board).2, occMustReturn x.occupant = false := by
  intro board
  induction board with
  | nil =>
    intro st _ x hx
    exact absurd hx (by simp [sweepBoard])
  | cons s rest ih =>
    intro st hnl x hx
    unfold sweepBoard at hx
    dsimp only at hx
    rcases List.mem_cons.mp hx with hx | hx
    · rw [hx]
      exact transformSquare_noLoan mn st s (hnl s (List.mem_cons_self _ _))
    · exact ih (transformSquare mn st s).1
        (fun y hy => hnl y (List.mem_cons_of_mem _ hy)) x hx

theorem sweepBoard_conserved (mn : Nat) :
    ∀ (board : List Square) (st : SweepSt),
      (∀ x ∈ board, occMustReturn x.occupant = false) →
      (∀ c t, (st.stock.get c).get t + nonLoanCount board c t ≤ INITIAL_COUNTS.get t) →
      ∀ c t, ((sweepBoard mn st board).1.stock.get c).get t
          + nonLoanCount (sweepBoard mn st board).2 c t
        = (st.stock.get c).get t + nonLoanCount board c t := by
  intro board
  induction board with
  | nil =>
    intro st _ _ c t
    rfl
  | cons s rest ih =>
    intro st hnl hcap c t
    have hnls : occMustReturn s.occupant = false := hnl s (List.mem_cons_self _ _)
    have hcaps : ∀ c' t', (st.stock.get c').get t'
        + (if isNonLoanPiece c' t' s.occupant = true then 1 else 0)
        ≤ INITIAL_COUNTS.get t' := by
      intro c' t'
      have hcc := hcap c' t'
      unfold nonLoanCount at hcc
      rw [List.countP_cons] at hcc
      split_ifs at hcc ⊢ <;> omega
    have hhead := transformSquare_conserved mn st s hnls hcaps
    have hcaprest : ∀ c' t', ((transformSquare mn st s).1.stock.get c').get t'
        + nonLoanCount rest c' t' ≤ INITIAL_COUNTS.get t' := by
      intro c' t'
      have h1 := hhead c' t'
      have h2 := hcap c' t'
      unfold nonLoanCount at h2 ⊢
      rw [List.countP_cons] at h2
      split_ifs at h1 h2 <;> omega
    have hrest := ih (transformSquare mn st s).1
      (fun y hy => hnl y (List.mem_cons_of_mem _ hy)) hcaprest c t
    have h1 := hhead c t
    unfold sweepBoard
    dsimp only
    unfold nonLoanCount
    unfold nonLoanCount at hrest
    rw [List.countP_cons, List.countP_cons]
    split_ifs at h1 ⊢ <;> omega

theorem sweepBoard_stockLe (mn : Nat) :
    ∀ (board : List Square) (st : SweepSt),
      (∀ c t, (st.stock.get c).get t ≤ INITIAL_COUNTS.get t) →
      ∀ c t, ((sweepBoard mn st board).1.stock.get c).get t ≤ INITIAL_COUNTS.get t := by
  intro board
  induction board with
  | nil =>
    intro st hle c t
    exact hle c t
  | cons s rest ih =>
    intro st hle c t
    unfold sweepBoard
    dsimp only
    exact ih (transformSquare mn st s).1
      (fun c' t' => transformSquare_stockLe mn st s hle c' t') c t

theorem applyAutoTransforms_conserved (gs : GameState)
    (hcs : conservedSum gs) (hnl : noLoans gs.board) :
    conservedSum (applyAutoTransforms gs) ∧ noLoans (applyAutoTransforms gs).board := by
  constructor
  · intro c t
    have h := sweepBoard_conserved gs.moveNumber gs.board
      ⟨gs.stock, gs.kingOnBoard, gs.kingProtectedUntil⟩
      (fun x hx => hnl x hx)
      (fun c' t' => le_of_eq (hcs c' t')) c t
    have h2 := hcs c t
    dsimp only at h
    unfold applyAutoTransforms
    dsimp only
    omega
  · intro x hx
    unfold applyAutoTransforms at hx
    dsimp only at hx
    exact sweepBoard_noLoans gs.moveNumber gs.board
      ⟨gs.stock, gs.kingOnBoard, gs.kingProtectedUntil⟩ (fun y hy => hnl y hy) x hx

theorem applyAutoTransforms_stockLe (gs : GameState) (h : stockLeCap gs) :
    stockLeCap (applyAutoTransforms gs) := by
  intro c t
  unfold applyAutoTransforms
  dsimp only
  exact sweepBoard_stockLe gs.moveNumber gs.board
    ⟨gs.stock, gs.kingOnBoard, gs.kingProtectedUntil⟩ (fun c' t' => h c' t') c t

theorem captureStep_empty (next : GameState) : captureStep next .empty = (next, none) := rfl

theorem moveOccStep_cnt (next : GameState) (f t : SquareId) (sF sT : Square)
    (hft : f ≠ t) (hF : findId next.board f = some sF) (hT : findId next.board t = some sT)
    (hTocc : sT.occupant = .empty) (c : Color) (ty : PieceType) :
    nonLoanCount (moveOccStep next f t sF.occupant).board c ty
      = nonLoanCount next.board c ty := by
  unfold moveOccStep
  dsimp only
  have h1 := cnt_setOccAt t sF.occupant c ty next.board sT hT
  have hF2 : findId (setOccAt next.board t sF.occupant) f = some sF := by
    rw [findId_setOccAt_ne t f sF.occupant hft next.board]
    exact hF
  have h2 := cnt_setOccAt f .empty c ty (setOccAt next.board t sF.occupant) sF hF2
  rw [hTocc, occCnt_empty] at h1
  rw [occCnt_empty] at h2
  omega

theorem moveOccStep_noLoans (next : GameState) (f t : SquareId) (mover : Occupant)
    (hm : occMustReturn mover = false) (hnl : noLoans next.board) :
    noLoans (moveOccStep next f t mover).board := by
  unfold moveOccStep
  dsimp only
  exact noLoans_setOccAt f .empty rfl _ (noLoans_setOccAt t mover hm _ hnl)

theorem safeReturnStep_id (next : GameState) (t : SquareId)
    (h : ∀ sq, findId next.board t = some sq → occMustReturn sq.occupant = false) :
    safeReturnStep next t = next := by
  unfold safeReturnStep
  split
  · rename_i sq hfind
    split
    · rename_i p hocc
      have hmr := h sq hfind
      rw [hocc] at hmr
      have hmr2 : p.mustReturn = false := hmr
      rw [if_neg (fun hx => by rw [hmr2] at hx; exact absurd hx.1 (by decide))]
    · rfl
  · rfl

theorem expireOcc_id (jm : Color) (mn : Nat) (sq : Square)
    (h : occMustReturn sq.occupant = false) : expireOcc jm mn sq = sq := by
  unfold expireOcc
  split
  · rename_i p hocc
    split
    · rename_i rb hrb
      rw [hocc] at h
      have h2 : p.mustReturn = false := h
      rw [if_neg (fun hx => by rw [h2] at hx; exact absurd hx.1 (by decide))]
    · rfl
  · rfl

theorem map_id_of (g : Square → Square) :
    ∀ (l : List Square), (∀ x ∈ l, g x = x) → l.map g = l := by
  intro l
  induction l with
  | nil => intro _; rfl
  | cons s rest ih =>
    intro h
    rw [List.map_cons, h s (List.mem_cons_self _ _),
      ih (fun y hy => h y (List.mem_cons_of_mem _ hy))]

theorem expiryStep_board_id (next : GameState) (hnl : noLoans next.board) :
    (expiryStep next).board = next.board := by
  unfold expiryStep
  dsimp only
  exact map_id_of _ next.board (fun x hx => expireOcc_id _ _ x (hnl x hx))

theorem inlinePieceTransform_conserved (next : GameState) (t : SquareId)
    (hnl : noLoans next.board)
    (hcap : ∀ c ty, (next.stock.get c).get ty + nonLoanCount next.board c ty
      ≤ INITIAL_COUNTS.get ty) :
    (∀ c ty, ((inlinePieceTransform next t).stock.get c).get ty
        + nonLoanCount (inlinePieceTransform next t).board c ty
      = (next.stock.get c).get ty + nonLoanCount next.board c ty)
    ∧ noLoans (inlinePieceTransform next t).board := by
  unfold inlinePieceTransform
  split
  · rename_i sq hfind
    split
    · rename_i x1 x2 p needed hocc hbs
      split
      · rename_i hcond
        dsimp only
        have hmr : p.mustReturn = false := by
          have hh := hnl sq (mem_of_findId next.board t sq hfind)
          rw [hocc] at hh
          exact hh
        constructor
        · intro c ty
          have hcnt1 : 0 < nonLoanCount next.board p.color p.type := by
            unfold nonLoanCount
            rw [List.countP_pos]
            refine ⟨sq, mem_of_findId next.board t sq hfind, ?_⟩
            rw [hocc]
            simp [isNonLoanPiece, hmr]
          have hcp : (next.stock.get p.color).get p.type + 1
              ≤ INITIAL_COUNTS.get p.type := by
            have hh := hcap p.color p.type
            omega
          have h1 := stockSwap_conserved next.stock p needed hcond.2.1 hcond.2.2 hcp c ty
          have h2 := cnt_setOccAt t
            (.piece ⟨p.color, needed, next.moveNumber, false, none⟩) c ty next.board sq hfind
          rw [hocc, occCnt_nonloanPiece _ _ p hmr,
            occCnt_nonloanPiece c ty ⟨p.color, needed, next.moveNumber, false, none⟩ rfl] at h2
          dsimp only at h2
          by_cases hK : needed = .K
          · rw [if_pos hK]
            by_cases hvac : p.type = .K ∧ needed ≠ .K
            · rw [if_pos hvac]
              dsimp only
              omega
            · rw [if_neg hvac]
              dsimp only
              omega
          · rw [if_neg hK]
            by_cases hvac : p.type = .K ∧ needed ≠ .K
            · rw [if_pos hvac]
              dsimp only
              omega
            · rw [if_neg hvac]
              dsimp only
              omega
        · by_cases hK : needed = .K
          · rw [if_pos hK]
            by_cases hvac : p.type = .K ∧ needed ≠ .K
            · rw [if_pos hvac]
              dsimp only
              exact noLoans_setOccAt t
                (.piece ⟨p.color, needed, next.moveNumber, false, none⟩) rfl next.board hnl
            · rw [if_neg hvac]
              dsimp only
              exact noLoans_setOccAt t
                (.piece ⟨p.color, needed, next.moveNumber, false, none⟩) rfl next.board hnl
          · rw [if_neg hK]
            by_cases hvac : p.type = .K ∧ needed ≠ .K
            · rw [if_pos hvac]
              dsimp only
              exact noLoans_setOccAt t
                (.piece ⟨p.color, needed, next.moveNumber, false, none⟩) rfl next.board hnl
            · rw [if_neg hvac]
              dsimp only
              exact noLoans_setOccAt t
                (.piece ⟨p.color, needed, next.moveNumber, false, none⟩) rfl next.board hnl
      · exact ⟨fun c ty => rfl, hnl⟩
    · exact ⟨fun c ty => rfl, hnl⟩
  · exact ⟨fun c ty => rfl, hnl⟩

theorem inlineMetaTransform_conserved (next : GameState) (t : SquareId)
    (hnl : noLoans next.board) :
    (∀ c ty, ((inlineMetaTransform next t).stock.get c).get ty
        + nonLoanCount (inlineMetaTransform next t).board c ty
      = (next.stock.get c).get ty + nonLoanCount next.board c ty)
    ∧ noLoans (inlineMetaTransform next t).board := by
  unfold inlineMetaTransform
  split
  · rename_i sq hfind
    split
    · rename_i x1 x2 mc needed hocc hbs
      split
      · rename_i hcond
        dsimp only
        constructor
        · intro c ty
          have h1 := stockTake_conserved next.stock mc needed hcond.2 c ty
          have h2 := cnt_setOccAt t
            (.piece ⟨mc, needed, next.moveNumber, false, none⟩) c ty next.board sq hfind
          rw [hocc, occCnt_metamorph,
            occCnt_nonloanPiece c ty ⟨mc, needed, next.moveNumber, false, none⟩ rfl] at h2
          dsimp only at h2
          by_cases hK : needed = .K
          · rw [if_pos hK]
            dsimp only
            omega
          · rw [if_neg hK]
            dsimp only
            omega
        · by_cases hK : needed = .K
          · rw [if_pos hK]
            dsimp only
            exact noLoans_setOccAt t
              (.piece ⟨mc, needed, next.moveNumber, false, none⟩) rfl next.board hnl
          · rw [if_neg hK]
            dsimp only
            exact noLoans_setOccAt t
              (.piece ⟨mc, needed, next.moveNumber, false, none⟩) rfl next.board hnl
      · exact ⟨fun c ty => rfl, hnl⟩
    · exact ⟨fun c ty => rfl, hnl⟩
  · exact ⟨fun c ty => rfl, hnl⟩

theorem moveMid_conserved (gs : GameState) (f t : SquareId) (sF sT : Square)
    (hft : f ≠ t) (hF : findId gs.board f = some sF) (hT : findId gs.board t = some sT)
    (hTocc : sT.occupant = .empty)
    (hcs : conservedSum gs) (hnl : noLoans gs.board) :
    conservedSum (moveMid gs f t sF.occupant sT gs.turn)
      ∧ noLoans (moveMid gs f t sF.occupant sT gs.turn).board := by
  set nA := moveOccStep gs f t sF.occupant with hnA
  set nB : GameState := { nA with lastMove := some (f, t, gs.turn) } with hnB
  set nD := inlinePieceTransform nB t with hnD
  set nE := inlineMetaTransform nD t with hnE
  set nF := promoFlagStep nE t with hnF
  set nG : GameState := { nF with turn := flipColor nF.turn, moveNumber := nF.moveNumber + 1 } with hnG
  have hAnl : noLoans nA.board :=
    moveOccStep_noLoans gs f t sF.occupant (hnl sF (mem_of_findId gs.board f sF hF)) hnl
  have hAcs : conservedSum nA := by
    intro c ty
    rw [hnA, moveOccStep_stock, moveOccStep_cnt gs f t sF sT hft hF hT hTocc c ty]
    exact hcs c ty
  have hBnl : noLoans nB.board := hAnl
  have hBcs : conservedSum nB := hAcs
  have hsr : safeReturnStep
      ({ moveOccStep gs f t sF.occupant with lastMove := some (f, t, gs.turn) } : GameState) t
      = { moveOccStep gs f t sF.occupant with lastMove := some (f, t, gs.turn) } := by
    refine safeReturnStep_id _ t ?_
    intro sq' hf'
    exact hAnl sq' (mem_of_findId _ t sq' hf')
  have hD := inlinePieceTransform_conserved nB t hBnl (fun c ty => le_of_eq (hBcs c ty))
  have hDcs : conservedSum nD := by
    intro c ty
    rw [hnD]
    rw [hD.1 c ty]
    exact hBcs c ty
  have hE := inlineMetaTransform_conserved nD t hD.2
  have hEcs : conservedSum nE := by
    intro c ty
    rw [hnE]
    rw [hE.1 c ty]
    exact hDcs c ty
  have hFcs : conservedSum nF := by
    intro c ty
    rw [hnF, promoFlagStep_stock]
    have hb : (promoFlagStep nE t).board = nE.board := promoFlagStep_board nE t
    rw [hb]
    exact hEcs c ty
  have hFnl : noLoans nF.board := by
    rw [hnF, promoFlagStep_board]
    exact hE.2
  have hGcs : conservedSum nG := hFcs
  have hGnl : noLoans nG.board := hFnl
  have hHb : (expiryStep nG).board = nG.board := expiryStep_board_id nG hGnl
  have hHcs : conservedSum (expiryStep nG) := by
    intro c ty
    rw [expiryStep_stock, hHb]
    exact hGcs c ty
  have hHnl : noLoans (expiryStep nG).board := by
    rw [hHb]
    exact hGnl
  have hfin := applyAutoTransforms_conserved (expiryStep nG) hHcs hHnl
  have hred : moveMid gs f t sF.occupant sT gs.turn = applyAutoTransforms (expiryStep nG) := by
    unfold moveMid
    dsimp only
    rw [hTocc, captureStep_empty]
    dsimp only
    rw [hsr]
  rw [hred]
  exact hfin

/-- Claim C3: the transformation sweep preserves, for every color and type,
the sum of the stock entry and the number of non-loan pieces of that color
and type on the board, and keeps every stock entry at or below its initial
cap (return-to-stock is clamped); the sum equals the initial cap along any
accepted non-capturing move (and conservation forces the cap bound). -/
theorem claim_C3 :
    (∀ gs : GameState, conservedSum gs → noLoans gs.board →
      conservedSum (applyAutoTransforms gs) ∧ noLoans (applyAutoTransforms gs).board)
    ∧ (∀ gs : GameState, stockLeCap gs → stockLeCap (applyAutoTransforms gs))
    ∧ (∀ gs : GameState, conservedSum gs → stockLeCap gs)
    ∧ (∀ (gs : GameState) (f t : SquareId) (sF sT : Square),
        gs.winner = none → findId gs.board f = some sF → findId gs.board t = some sT →
        occColor sF.occupant = some gs.turn →
        (legalFor gs sF).any (hitsSquare sT) = true →
        kingGuardMsg gs gs.turn sT.occupant = none →
        f ≠ t → sT.occupant = .empty →
        conservedSum gs → noLoans gs.board →
        conservedSum (performMove gs f t) ∧ noLoans (performMove gs f t).board) := by
  refine ⟨?_, ?_, ?_, ?_⟩
  · intro gs h1 h2
    exact applyAutoTransforms_conserved gs h1 h2
  · intro gs h
    exact applyAutoTransforms_stockLe gs h
  · intro gs h c t
    have hh := h c t
    omega
  · intro gs f t sF sT hW hF hT hC hL hG hft hTocc hcs hnl
    have hacc : performMove gs f t = performMoveAccept gs f t sF.occupant sT gs.turn := by
      rw [pm_toChecked gs f t sF sT hW hF hT hC, pmc_accept _ _ _ _ _ _ _ hL hG]
    have hb : (performMove gs f t).board
        = (moveMid gs f t sF.occupant sT gs.turn).board := by
      rw [hacc]
      unfold performMoveAccept
      rw [winStep_board]
    have hst : (performMove gs f t).stock
        = (moveMid gs f t sF.occupant sT gs.turn).stock := by
      rw [hacc]
      unfold performMoveAccept
      rw [winStep_stock]
    have hm := moveMid_conserved gs f t sF sT hft hF hT hTocc hcs hnl
    constructor
    · intro c ty
      rw [hst, hb]
      exact hm.1 c ty
    · rw [hb]
      exact hm.2

/-- Witness for C3: from the freshly created game (all counts at the cap,
no loans), the opening metamorph step preserves conservation through the
move pipeline and its transformation sweep. -/
theorem claim_C3_witness :
    conservedSum (initialGame rand0) ∧ noLoans (initialGame rand0).board
      ∧ conservedSum (performMove (initialGame rand0) (4, 7) (4, 6))
      ∧ noLoans (performMove (initialGame rand0) (4, 7) (4, 6)).board := by
  have h := claim_C3.2.2.2 (initialGame rand0) (4, 7) (4, 6)
    ⟨4, 7, none, .metamorph .white⟩
    ⟨4, 6, some PieceType.P, .empty⟩
    (by decide) (by decide) (by decide) (by decide) (by decide) (by decide)
    (by decide) (by decide) (by decide) (by decide)
  exact ⟨by decide, by decide, h.1, h.2⟩
